import Mathlib

/-!
# The `compostin` puzzle progression engine

A shallow embedding of `src/energy/compostin/src/main.cpp` and the proofs of its
specification.

Modelling conventions.

* All global variables of the sketch (the four circular buffers, `progState`, the relay pin,
  the LED strip, the phase-button LED and the pseudo-random source) are the fields of one
  record, `World`; a C++ function that mutates globals is a function `World → World`.
* `int` values are `Int`; the `unsigned long` time stamps are `Nat` below `2 ^ 32` and the one
  sum the sketch forms on them is reduced modulo `2 ^ 32`.
* `random()` is an oracle: the world carries the stream `rnd` of raw draws still to come and each
  call consumes its head. Theorems quantify over every stream.
* `millis()` is an input of the handler that reads it (`now`).
* The only unbounded loop, the rejection sampling of `getRandomColorIndex`, takes a bound `fuel`
  on its number of iterations and returns `none` when the bound is hit; everything that calls it
  returns an `Option`.
* `Serial` output, `delay` and `ledStrip.show()` have no effect on the state and are left out.
-/

namespace Compostin

/-! ## Constants -/

def BUTTONS_NUM : Int := 8

def LED_COLOR_PALETTE_SIZE : Int := 5

def FINAL_PHASE : Int := 3

def BUTTONS_BUF_SIZE : Nat := 10

/-- The value of `INT_MAX` in `limits.h` for the 16-bit `int` of the AVR boards. -/
def INT_MAX : Nat := 32767

/-- The modulus of `unsigned long` arithmetic. -/
def ULONG_MOD : Nat := 2 ^ 32

/-! ## The `CircularBuffer` library

A `CircularBuffer<T, S>` is the list of its elements, oldest first; `S` is passed to the
operations that depend on it. -/

namespace CircularBuffer

/-- The method `isFull()`: the element count has reached the capacity. -/
def isFull {α : Type} (cap : Nat) (buf : List α) : Bool :=
  decide (cap ≤ buf.length)

/-- The method `push(value)`: add at the tail; when the buffer is full the oldest element is
overwritten. -/
def push {α : Type} (cap : Nat) (buf : List α) (value : α) : List α :=
  if isFull cap buf then buf.drop 1 ++ [value] else buf ++ [value]

end CircularBuffer

/-- Utility to check for existence in a circular buffer: the loop
`for (i = 0; i < buf.size(); i++) if (buf[i] == val) return true;` then `return false`. -/
def inBuffer {α : Type} [DecidableEq α] : List α → α → Bool
  | [], _ => false
  | x :: rest, val => if x = val then true else inBuffer rest val

/-! ## Program state -/

/-- The struct `programState`. -/
structure ProgramState where
  startMillis : Nat
  currPhase : Int
  hitStreak : Int
  isFinished : Bool
  isLocked : Bool

/-- All globals of the sketch. `relay` is the level written to `RELAY_PIN` (`true` is `HIGH`,
the relay open); `ledStrip` holds the colour last requested for each pixel; `ledButtonPhase` is
the last event sent to the phase-button LED (`true` is `EVT_ON`); `rnd` is the stream of raw
values that the coming calls of `random()` return. -/
structure World where
  bufErrorPalette : List Nat
  bufButtonPresses : List Int
  bufButtonTargets : List Int
  bufButtonColors : List Nat
  progState : ProgramState
  relay : Bool
  ledStrip : List Nat
  ledButtonPhase : Bool
  rnd : Nat → Nat

/-- One raw draw of the pseudo-random generator: the head of the stream, and the world with the
stream advanced. -/
def World.draw (w : World) : Nat × World :=
  (w.rnd 0, { w with rnd := fun n => w.rnd (n + 1) })

/-- Arduino `random(howsmall, howbig)` applied to the raw draw `r`: a value of
`[howsmall, howbig)`. -/
def random (r : Nat) (howsmall howbig : Int) : Int :=
  if howsmall ≥ howbig then howsmall else (r : Int) % (howbig - howsmall) + howsmall

/-! ## Relay -/

def lockRelay (w : World) : World :=
  { w with relay := false }

def openRelay (w : World) : World :=
  { w with relay := true }

def initRelay (w : World) : World :=
  lockRelay w

/-! ## Configuration that depends on the phase -/

def getPhaseHitStreak (phase : Int) : Int :=
  if phase = 0 then 6 else if phase = 1 then 4 else 3

def getPhaseMaxSpanMillis (phase : Int) : Nat :=
  if phase = 0 then 10000 else if phase = 1 then 6000 else 5000

/-- The function `getPhaseNumTargets`: `maxNum = 7` does not exceed `BUTTONS_NUM`, so the
result is `random(5, 7)`; the branch for too few buttons is kept as in the source. -/
def getPhaseNumTargets (_phase : Int) (w : World) : Int × World :=
  let minNum : Int := 5
  let maxNum : Int := 7
  let (r, w1) := w.draw
  if maxNum > BUTTONS_NUM then (random r 1 BUTTONS_NUM, w1) else (random r minNum maxNum, w1)

/-! ## Targets -/

def clearTargets (w : World) : World :=
  { w with bufButtonTargets := [], bufButtonColors := [] }

def inTargetsBuffer (w : World) (idx : Int) : Bool :=
  inBuffer w.bufButtonTargets idx

/-- The function `pushTarget`: the returned flag and the world afterwards. -/
def pushTarget (idx : Int) (w : World) : Bool × World :=
  if idx < 0 ∨ idx ≥ BUTTONS_NUM then (false, w)
  else if inTargetsBuffer w idx then (false, w)
  else if !CircularBuffer.isFull BUTTONS_NUM.toNat w.bufButtonTargets then
    (true, { w with
      bufButtonTargets := CircularBuffer.push BUTTONS_NUM.toNat w.bufButtonTargets idx })
  else (false, w)

/-- The `while` loop of `pickRandomTarget`, with its variables `counter` and `randPivot`. The
guard `counter <= BUTTONS_NUM` fails at the tenth test at the latest, so the call with
`fuel = 10` never stops for lack of fuel. -/
def pickRandomTargetLoop (w : World) : Nat → Int → Int → Int
  | 0, _, randPivot => randPivot
  | fuel + 1, counter, randPivot =>
    if inTargetsBuffer w randPivot && decide (counter ≤ BUTTONS_NUM) then
      pickRandomTargetLoop w fuel (counter + 1) ((randPivot + 1) % BUTTONS_NUM)
    else randPivot

def pickRandomTarget (w : World) : Int × World :=
  let (r, w1) := w.draw
  let randPivot := random r 0 (BUTTONS_NUM * 10) % BUTTONS_NUM
  let last := pickRandomTargetLoop w1 10 0 randPivot
  (if inTargetsBuffer w1 last then -1 else last, w1)

/-- The `for` loop of `randomizeTargets`, `n` iterations to go; `break` when no target is
left. -/
def randomizeTargetsLoop : Nat → World → World
  | 0, w => w
  | n + 1, w =>
    let (randTarget, w1) := pickRandomTarget w
    if randTarget = -1 then w1 else randomizeTargetsLoop n (pushTarget randTarget w1).2

def randomizeTargets (num : Int) (w : World) : World :=
  let num := if num > BUTTONS_NUM then BUTTONS_NUM else num
  randomizeTargetsLoop num.toNat (clearTargets w)

/-! ## Colours -/

/-- The packing `Adafruit_NeoPixel::Color(r, g, b)` of three 8-bit channels: `r << 16 | g << 8 | b`. -/
def Color (r g b : Nat) : Nat :=
  r * 65536 + g * 256 + b

/-- The palette: green, yellow, red, blue, white. The gamma table of the LED library maps the
channel values 0 and 255 to themselves, so `gamma32` leaves these five colours as they are. -/
def LED_COLOR_PALETTE : List Nat :=
  [Color 0 255 0, Color 255 255 0, Color 255 0 0, Color 0 0 255, Color 255 255 255]

/-- The array access `LED_COLOR_PALETTE[idx]`. -/
def paletteColor (idx : Int) : Nat :=
  LED_COLOR_PALETTE.getD idx.toNat 0

def refreshErrorPaletteBuffer (phase : Int) (w : World) : World :=
  let w0 := { w with bufErrorPalette := [] }
  let push := fun (v : World) (x : Nat) =>
    { v with bufErrorPalette :=
      CircularBuffer.push LED_COLOR_PALETTE_SIZE.toNat v.bufErrorPalette x }
  if phase = 0 then
    push w0 3
  else if phase = 1 then
    push (push w0 1) 2
  else
    push (push (push w0 2) 3) 4

/-- The `do ... while (found != isError)` loop of `getRandomColorIndex`, at most `fuel`
iterations; `idx` is a `uint8_t`. -/
def getRandomColorIndexLoop (isError : Bool) : Nat → World → Option (Nat × World)
  | 0, _ => none
  | fuel + 1, w =>
    let (r, w1) := w.draw
    let idx := (random r 0 LED_COLOR_PALETTE_SIZE).toNat % 256
    let found := inBuffer w1.bufErrorPalette idx
    if found != isError then getRandomColorIndexLoop isError fuel w1 else some (idx, w1)

def getRandomColorIndex (fuel : Nat) (phase : Int) (isError : Bool) (w : World) :
    Option (Int × World) :=
  (getRandomColorIndexLoop isError fuel (refreshErrorPaletteBuffer phase w)).map
    fun res => ((res.1 : Int), res.2)

def getPhaseRandomColorValid (fuel : Nat) (phase : Int) (w : World) : Option (Nat × World) :=
  (getRandomColorIndex fuel phase false w).map fun res => (paletteColor res.1, res.2)

def getPhaseRandomColorError (fuel : Nat) (phase : Int) (w : World) : Option (Nat × World) :=
  (getRandomColorIndex fuel phase true w).map fun res => (paletteColor res.1, res.2)

/-- The `for` loop of `updateButtonColorsBuffer` over the button indices still to do. -/
def updateButtonColorsLoop (fuel : Nat) : List Int → World → Option World
  | [], w => some w
  | i :: rest, w =>
    (if inTargetsBuffer w i then getPhaseRandomColorValid fuel w.progState.currPhase w
      else getPhaseRandomColorError fuel w.progState.currPhase w).bind fun res =>
      updateButtonColorsLoop fuel rest
        { res.2 with bufButtonColors :=
          CircularBuffer.push BUTTONS_NUM.toNat res.2.bufButtonColors res.1 }

/-- The button indices `0, ..., BUTTONS_NUM - 1` that the `for` loops run over. -/
def buttonIndices : List Int :=
  [0, 1, 2, 3, 4, 5, 6, 7]

def updateButtonColorsBuffer (fuel : Nat) (w : World) : Option World :=
  updateButtonColorsLoop fuel buttonIndices { w with bufButtonColors := [] }

/-! ## Reset -/

def initState (w : World) : World :=
  let w1 := clearTargets { w with bufButtonPresses := [] }
  { w1 with
    progState :=
      { startMillis := 0, currPhase := 0, hitStreak := 0, isFinished := false, isLocked := true }
    ledButtonPhase := true }

def resetStateToPhaseStart (w : World) : World :=
  let w1 := clearTargets { w with bufButtonPresses := [] }
  { w1 with
    progState := { w1.progState with startMillis := 0, hitStreak := 0, isLocked := true }
    ledButtonPhase := true }

/-! ## The presses buffer -/

def inPressesBuffer (w : World) (val : Int) : Bool :=
  inBuffer w.bufButtonPresses val

/-- The loop of `isPressesBufferError` over the recorded presses still to check. -/
def isPressesBufferErrorLoop (w : World) : List Int → Bool
  | [] => false
  | press :: rest => if !inTargetsBuffer w press then true else isPressesBufferErrorLoop w rest

def isPressesBufferError (w : World) : Bool :=
  isPressesBufferErrorLoop w w.bufButtonPresses

/-- The loop of `isPressesBufferMatch` over the targets still to check. -/
def isPressesBufferMatchLoop (w : World) : List Int → Bool
  | [] => true
  | target :: rest => if !inPressesBuffer w target then false else isPressesBufferMatchLoop w rest

def isPressesBufferMatch (w : World) : Bool :=
  if w.bufButtonTargets.length ≠ w.bufButtonPresses.length then false
  else isPressesBufferMatchLoop w w.bufButtonTargets

/-! ## LEDs -/

/-- The method `ledStrip.clear()`: every pixel off. -/
def ledClear (w : World) : World :=
  { w with ledStrip := List.replicate BUTTONS_NUM.toNat 0 }

/-- The method `ledStrip.fill(c)`: every pixel set to `c`. -/
def ledFill (c : Nat) (w : World) : World :=
  { w with ledStrip := List.replicate BUTTONS_NUM.toNat c }

/-- The method `ledStrip.setPixelColor(n, c)`: ignored when `n` is not a pixel of the strip. -/
def ledSetPixelColor (n : Int) (c : Nat) (w : World) : World :=
  if 0 ≤ n ∧ n < BUTTONS_NUM then { w with ledStrip := w.ledStrip.set n.toNat c } else w

def initLeds (w : World) : World :=
  ledClear w

/-- The function `showErrorLedEffect`, `n` iterations to go. -/
def showErrorLedEffectLoop : Nat → World → World
  | 0, w => w
  | n + 1, w => showErrorLedEffectLoop n (ledClear (ledFill (Color 255 0 0) w))

def showErrorLedEffect (w : World) : World :=
  showErrorLedEffectLoop 3 w

/-- The function `randomColor`: three draws. C++ leaves the order in which the three arguments
are evaluated open; here the draws are taken in the order red, green, blue. -/
def randomColor (w : World) : Nat × World :=
  let (r1, w1) := w.draw
  let (r2, w2) := w1.draw
  let (r3, w3) := w2.draw
  (Color (random r1 0 255).toNat (random r2 0 255).toNat (random r3 0 255).toNat, w3)

/-- The inner loop of `showSuccessLedEffect` over the pixels still to set. -/
def showSuccessPixels : List Int → World → World
  | [], w => w
  | i :: rest, w =>
    let (c, w1) := randomColor w
    showSuccessPixels rest (ledSetPixelColor i c w1)

/-- The outer loop of `showSuccessLedEffect`, `n` iterations to go. -/
def showSuccessLedEffectLoop : Nat → World → World
  | 0, w => w
  | n + 1, w => showSuccessLedEffectLoop n (showSuccessPixels buttonIndices (ledClear w))

def showSuccessLedEffect (numLoops : Int) (w : World) : World :=
  let numLoops := if numLoops < 1 then (INT_MAX : Int) else numLoops
  showSuccessLedEffectLoop numLoops.toNat w

/-- The loop of `showTargetLeds` over the button indices still to do; `bufButtonColors[i]` is
read only when `colorExists`. -/
def showTargetLedsLoop : List Int → World → World
  | [], w => w
  | i :: rest, w =>
    let colorExists := decide ((w.bufButtonColors.length : Int) ≥ i + 1)
    let color := if inPressesBuffer w i || !colorExists then 0 else w.bufButtonColors.getD i.toNat 0
    showTargetLedsLoop rest (ledSetPixelColor i color w)

def showTargetLeds (w : World) : World :=
  showTargetLedsLoop buttonIndices w

/-! ## Progress of the game -/

/-- The function `isExpired`, `now` being the value `millis()` returns. -/
def isExpired (now : Nat) (w : World) : Bool :=
  if w.progState.startMillis = 0 then false
  else if now < w.progState.startMillis then true
  else
    let maxSpan := getPhaseMaxSpanMillis w.progState.currPhase
    let limit := (w.progState.startMillis + maxSpan) % ULONG_MOD
    decide (now > limit)

def updateTargets (fuel : Nat) (now : Nat) (w : World) : Option World :=
  let (numTargets, w1) := getPhaseNumTargets w.progState.currPhase w
  let w2 := randomizeTargets numTargets w1
  (updateButtonColorsBuffer fuel w2).map fun w3 =>
    let w4 := showTargetLeds w3
    { w4 with progState := { w4.progState with startMillis := now }, bufButtonPresses := [] }

def advanceProgress (fuel : Nat) (now : Nat) (w : World) : Option World :=
  let w1 := { w with progState := { w.progState with hitStreak := w.progState.hitStreak + 1 } }
  let minHitStreak := getPhaseHitStreak w1.progState.currPhase
  let isNewPhase := decide (w1.progState.hitStreak ≥ minHitStreak)
  if isNewPhase then
    let w2 := showSuccessLedEffect 1 w1
    some { w2 with
      progState :=
        { w2.progState with hitStreak := 0, currPhase := w2.progState.currPhase + 1,
                            isLocked := true }
      ledButtonPhase := true }
  else
    updateTargets fuel now w1

def hasFinished (w : World) : Bool :=
  decide (w.progState.currPhase ≥ FINAL_PHASE)

def errorAndRestart (w : World) : World :=
  resetStateToPhaseStart (showErrorLedEffect w)

def onFinish (w : World) : World :=
  showSuccessLedEffect 0 (openRelay w)

/-- The handler of the scheduler tick; `now` is the clock reading during the tick, the value of
both `millis()` calls a tick can make (in `isExpired` and in `updateTargets`). -/
def updateState (fuel : Nat) (now : Nat) (w : World) : Option World :=
  if w.progState.isFinished then some w
  else if hasFinished w then
    let w1 := onFinish w
    some { w1 with progState := { w1.progState with isFinished := true } }
  else if w.progState.isLocked then some (ledClear w)
  else if w.progState.startMillis = 0 then updateTargets fuel now w
  else if isPressesBufferError w then some (errorAndRestart w)
  else if isExpired now w then some (errorAndRestart w)
  else if isPressesBufferMatch w then advanceProgress fuel now w
  else some (showTargetLeds w)

/-! ## Buttons -/

/-- The handler `onPress(idx, v, up)` of a button; `v` and `up` are not used. -/
def onPress (idx : Int) (w : World) : World :=
  if w.progState.isLocked then w
  else
    let isDup := inBuffer w.bufButtonPresses idx
    if !isDup then
      { w with bufButtonPresses := CircularBuffer.push BUTTONS_BUF_SIZE w.bufButtonPresses idx }
    else w

/-- The handler `onPhasePress` of the phase button; `now` is the clock reading. -/
def onPhasePress (fuel : Nat) (now : Nat) (w : World) : Option World :=
  if !w.progState.isLocked then some w
  else
    updateTargets fuel now
      { w with progState := { w.progState with isLocked := false }, ledButtonPhase := false }

def initButtons (w : World) : World :=
  { w with ledButtonPhase := false }

/-! ## Entry point -/

/-- The function `setup`: `initButtons`, `initState`, `initLeds`, `initRelay`; the state timer
it starts is the source of the ticks. -/
def setup (w : World) : World :=
  initRelay (initLeds (initState (initButtons w)))

/-- The events the scheduler delivers after boot. -/
inductive Event where
  | tick (now : Nat)
  | press (idx : Int)
  | phasePress (now : Nat)

/-- The handler run for an event. -/
def step (fuel : Nat) : Event → World → Option World
  | Event.tick now, w => updateState fuel now w
  | Event.press idx, w => some (onPress idx w)
  | Event.phasePress now, w => onPhasePress fuel now w

/-- The worlds the engine can be in between two events: the world `setup` leaves, whatever the
memory held before, and every world a handler returns from a reachable one. -/
inductive Reachable : World → Prop where
  | boot (w0 : World) : Reachable (setup w0)
  | next (fuel : Nat) (ev : Event) (w w1 : World) :
      Reachable w → step fuel ev w = some w1 → Reachable w1

/-! # Vocabulary of the specification -/

/-- The property of a target buffer that `pushTarget` maintains: no index twice, every index a
button. -/
def TargetsOk (buf : List Int) : Prop :=
  buf.Nodup ∧ ∀ x ∈ buf, 0 ≤ x ∧ x < BUTTONS_NUM

/-- The stream of draws `0, 1, 2, ...`, used in the worked scenarios. -/
def countingDraws : Nat → Nat :=
  fun n => n

/-- A world in the middle of a round, unlocked and unfinished: the given phase, streak, start
time, targets and recorded presses; the colour buffer is full, the relay closed, the LEDs off. -/
def roundWorld (phase streak : Int) (start : Nat) (targets presses : List Int) : World :=
  { bufErrorPalette := []
    bufButtonPresses := presses
    bufButtonTargets := targets
    bufButtonColors := List.replicate 8 (Color 0 255 0)
    progState :=
      { startMillis := start, currPhase := phase, hitStreak := streak, isFinished := false,
        isLocked := false }
    relay := false
    ledStrip := List.replicate 8 0
    ledButtonPhase := false
    rnd := countingDraws }

/-- The error class of a phase, as palette indices: blue in phase 0; yellow and red in phase 1;
red, blue and white in every other phase. -/
def phaseErrorSet (phase : Int) : List Int :=
  if phase = 0 then [3] else if phase = 1 then [1, 2] else [2, 3, 4]

/-- The handlers of a list of events, run one after the other. -/
def runEvents (fuel : Nat) : List Event → World → Option World
  | [], w => some w
  | ev :: rest, w => (step fuel ev w).bind (runEvents fuel rest)

/-- Whether an event is the unlock press of the phase button. -/
def Event.isUnlock : Event → Bool
  | Event.phasePress _ => true
  | _ => false

/-- Scenario D of the specification: phase 2, streak 2, the presses 3, 1, 5 match the targets
1, 3, 5. -/
def scenarioD : World :=
  roundWorld 2 2 1000 [1, 3, 5] [3, 1, 5]

/-- The world after the tick that completes the streak of scenario D. -/
def scenarioDNext : World :=
  let w2 := showSuccessLedEffect 1
    { scenarioD with progState := { scenarioD.progState with hitStreak := 3 } }
  { w2 with
    progState := { w2.progState with hitStreak := 0, currPhase := 3, isLocked := true }
    ledButtonPhase := true }

/-- A stream of draws is fair when every palette index keeps coming: from any position on, each
of the five residues modulo `LED_COLOR_PALETTE_SIZE` occurs again. -/
def FairDraws (rnd : Nat → Nat) : Prop :=
  ∀ start c : Nat, c < 5 → ∃ k, rnd (start + k) % 5 = c

/-- Scenario A of the specification: phase 0, streak 0, the presses 3, 1, 5 for the targets
1, 3, 5. -/
def scenarioA : World :=
  roundWorld 0 0 1000 [1, 3, 5] [3, 1, 5]

/-- The world after the tick of scenario A at time 2000 (the tick returns: see
`matching_round_increments_streak_witness`). -/
def scenarioANext : World :=
  (updateState 5 2000 scenarioA).getD scenarioA

/-- A round played without a fault: the unlock press when the engine is locked, then a press of
every target, then a tick. -/
def playRound (fuel now : Nat) (w : World) : Option World :=
  (if w.progState.isLocked then onPhasePress fuel now w else some w).bind fun w1 =>
    runEvents fuel (w1.bufButtonTargets.map Event.press ++ [Event.tick now]) w1

/-- A number of rounds played without a fault, one after the other. -/
def playRounds (fuel now : Nat) : Nat → World → Option World
  | 0, w => some w
  | n + 1, w => (playRound fuel now w).bind (playRounds fuel now n)

/-- The world after boot and thirteen rounds without a fault (six in phase 0, four in phase 1,
three in phase 2), with the draws 0, 1, 2, ... -/
def wonWorld : World :=
  (playRounds 5 1000 13 (setup scenarioD)).getD (setup scenarioD)

/-- The world after the tick that follows the thirteen rounds. -/
def finishedWorld : World :=
  { onFinish wonWorld with progState := { (onFinish wonWorld).progState with isFinished := true } }

/-- The colour `c` suits button `i` in a phase: it is the palette colour of an index that belongs
to the error set of the phase exactly when `i` is not a target. -/
def ColorSuits (phase : Int) (targets : List Int) (i : Int) (c : Nat) : Prop :=
  ∃ idx : Int, 0 ≤ idx ∧ idx < 5 ∧ c = paletteColor idx ∧
    (idx ∈ phaseErrorSet phase ↔ i ∉ targets)

/-- The world after boot and the unlock press at time 1000, with the draws 0, 1, 2, ... -/
def firstRound : World :=
  (onPhasePress 5 1000 (setup scenarioD)).getD (setup scenarioD)

/-- The world after `updateButtonColorsBuffer` in scenario A, with the draws 0, 1, 2, ... -/
def scenarioAColors : World :=
  (updateButtonColorsBuffer 5 scenarioA).getD scenarioA

/-- An event whose button index, when it carries one, is a button of the panel. -/
def Event.onPanel : Event → Bool
  | Event.press idx => decide (0 ≤ idx ∧ idx < BUTTONS_NUM)
  | _ => true

/-- The worlds reachable when every button press carries an index of `[0, BUTTONS_NUM)`, as the
eight handlers that `initButtons` registers do. -/
inductive ReachableOnPanel : World → Prop where
  | boot (w0 : World) : ReachableOnPanel (setup w0)
  | next (fuel : Nat) (ev : Event) (w w1 : World) :
      ReachableOnPanel w → ev.onPanel = true → step fuel ev w = some w1 → ReachableOnPanel w1

/-- The world after the thirteen faultless rounds and an unlock press at time 2000: phase 3, not
yet finished, unlocked. -/
def unlockedWonWorld : World :=
  (onPhasePress 5 2000 wonWorld).getD wonWorld

/-- The world after the tick that follows: finished, and still unlocked. -/
def unlockedFinishedWorld : World :=
  { onFinish unlockedWonWorld with
    progState := { (onFinish unlockedWonWorld).progState with isFinished := true } }
/-- The world after boot (with the draws 1, 2, 3, ...) and an unlock press while the clock reads
0. -/
def unlockedAtZero : World :=
  (onPhasePress 5 0 (setup scenarioD.draw.2)).getD (setup scenarioD.draw.2)

/-- The world after the next tick, at time 50. -/
def secondRound : World :=
  (updateState 5 50 unlockedAtZero).getD unlockedAtZero

/-- Scenario D (phase 2, streak 2, presses 3, 1, 5 for the targets 1, 3, 5) with the round
started 1000 ms before the 32-bit clock wraps. -/
def scenarioDNearWrap : World :=
  roundWorld 2 2 4294966296 [1, 3, 5] [3, 1, 5]

/-- Scenario A (phase 0, streak 0, presses 3, 1, 5 for the targets 1, 3, 5) with the round
started 1000 ms before the 32-bit clock wraps. -/
def scenarioANearWrap : World :=
  roundWorld 0 0 4294966296 [1, 3, 5] [3, 1, 5]

/-! # Proofs -/

/-! ## Buffers: basic facts -/

theorem inBuffer_eq_true_iff {α : Type} [DecidableEq α] (buf : List α) (val : α) :
    inBuffer buf val = true ↔ val ∈ buf := by
  induction buf with
  | nil => simp [inBuffer]
  | cons x rest ih =>
    by_cases h : x = val
    · simp [inBuffer, h]
    · have h2 : ¬ val = x := fun e => h e.symm
      simp [inBuffer, h, h2, ih]

theorem inBuffer_eq_false_iff {α : Type} [DecidableEq α] (buf : List α) (val : α) :
    inBuffer buf val = false ↔ val ∉ buf := by
  rw [← inBuffer_eq_true_iff]
  cases inBuffer buf val <;> simp

theorem push_of_not_full {α : Type} (cap : Nat) (buf : List α) (value : α)
    (h : CircularBuffer.isFull cap buf = false) :
    CircularBuffer.push cap buf value = buf ++ [value] := by
  simp [CircularBuffer.push, h]

/-! ## Target selection -/

theorem pushTarget_ok (idx : Int) (w : World) (h : TargetsOk w.bufButtonTargets) :
    TargetsOk (pushTarget idx w).2.bufButtonTargets ∧
      (pushTarget idx w).2.bufButtonTargets.length ≤ w.bufButtonTargets.length + 1 := by
  unfold pushTarget
  split_ifs with h1 h2 h3
  · exact ⟨h, Nat.le_succ _⟩
  · exact ⟨h, Nat.le_succ _⟩
  · have hfull : CircularBuffer.isFull BUTTONS_NUM.toNat w.bufButtonTargets = false := by
      simpa using h3
    have hnot : idx ∉ w.bufButtonTargets := by
      rw [← inBuffer_eq_false_iff]
      simpa [inTargetsBuffer] using h2
    have hrange : 0 ≤ idx ∧ idx < BUTTONS_NUM := by
      constructor <;> omega
    simp only [push_of_not_full _ _ _ hfull]
    refine ⟨⟨?_, ?_⟩, by simp⟩
    · exact List.Nodup.append h.1 (List.nodup_singleton idx) (by simpa using hnot)
    · intro x hx
      rcases List.mem_append.mp hx with hx | hx
      · exact h.2 x hx
      · rw [List.mem_singleton.mp hx]
        exact hrange
  · exact ⟨h, Nat.le_succ _⟩

/-- The bound 10 on the `while` loop of `pickRandomTarget` is never the reason it stops: from
`counter = 0`, ten tests of the guard are enough, and more fuel changes nothing. -/
theorem pickRandomTargetLoop_fuel (w : World) (fuel : Nat) (counter randPivot : Int)
    (hfuel : counter + fuel ≥ 10) :
    pickRandomTargetLoop w (fuel + 1) counter randPivot =
      pickRandomTargetLoop w fuel counter randPivot := by
  induction fuel generalizing counter randPivot with
  | zero =>
    have hguard : ¬ counter ≤ BUTTONS_NUM := by
      simp only [BUTTONS_NUM]
      omega
    simp [pickRandomTargetLoop, hguard]
  | succ fuel ih =>
    rw [pickRandomTargetLoop]
    conv_rhs => rw [pickRandomTargetLoop]
    rw [ih (counter + 1) ((randPivot + 1) % BUTTONS_NUM) (by push_cast at hfuel ⊢; omega)]

theorem pickRandomTarget_targets (w : World) :
    (pickRandomTarget w).2.bufButtonTargets = w.bufButtonTargets := by
  simp [pickRandomTarget, World.draw]

theorem randomizeTargetsLoop_ok (n : Nat) (w : World) (h : TargetsOk w.bufButtonTargets) :
    TargetsOk (randomizeTargetsLoop n w).bufButtonTargets ∧
      (randomizeTargetsLoop n w).bufButtonTargets.length ≤ w.bufButtonTargets.length + n := by
  induction n generalizing w with
  | zero => exact ⟨h, Nat.le_refl _⟩
  | succ n ih =>
    have hpick : TargetsOk (pickRandomTarget w).2.bufButtonTargets := by
      rw [pickRandomTarget_targets]
      exact h
    rw [randomizeTargetsLoop]
    by_cases hstop : (pickRandomTarget w).1 = -1
    · simp only [hstop, if_true]
      rw [pickRandomTarget_targets]
      exact ⟨h, by omega⟩
    · simp only [hstop, if_false]
      have hpush := pushTarget_ok (pickRandomTarget w).1 (pickRandomTarget w).2 hpick
      have hrec := ih _ hpush.1
      refine ⟨hrec.1, ?_⟩
      have hlen := hpush.2
      rw [pickRandomTarget_targets] at hlen
      omega

/-- C1 (distinctness of the selected targets). For every integer `num` and every world `w`
(so for every stream of random draws and every earlier content of the target buffer), after
`randomizeTargets num` the target buffer has no repeated index, every entry lies in
`[0, BUTTONS_NUM)` with `BUTTONS_NUM = 8`, and its size is at most `min num 8`, and is `0`
when `num ≤ 0`. -/
theorem randomizeTargets_distinct_bounded (num : Int) (w : World) :
    BUTTONS_NUM = 8 ∧
    (randomizeTargets num w).bufButtonTargets.Nodup ∧
    (∀ x ∈ (randomizeTargets num w).bufButtonTargets, 0 ≤ x ∧ x < BUTTONS_NUM) ∧
    (if num ≤ 0 then (randomizeTargets num w).bufButtonTargets.length = 0
      else ((randomizeTargets num w).bufButtonTargets.length : Int) ≤ min num 8) := by
  have hclear : TargetsOk (clearTargets w).bufButtonTargets := by
    simp [clearTargets, TargetsOk]
  have hbound : ∀ n : Nat,
      TargetsOk (randomizeTargetsLoop n (clearTargets w)).bufButtonTargets ∧
        (randomizeTargetsLoop n (clearTargets w)).bufButtonTargets.length ≤ n := by
    intro n
    have h := randomizeTargetsLoop_ok n (clearTargets w) hclear
    refine ⟨h.1, ?_⟩
    have h2 := h.2
    simp only [clearTargets, List.length_nil] at h2
    simpa [clearTargets] using h2
  refine ⟨rfl, ?_, ?_, ?_⟩
  · exact (hbound _).1.1
  · exact (hbound _).1.2
  · unfold randomizeTargets
    simp only [BUTTONS_NUM]
    by_cases hneg : num ≤ 0
    · have hsmall : ¬ num > 8 := by omega
      have h := (hbound num.toNat).2
      have h0 : num.toNat = 0 := by omega
      rw [h0] at h
      simp only [hneg, hsmall, if_true, if_false, h0]
      omega
    · by_cases hbig : num > 8
      · have h := (hbound (8 : Int).toNat).2
        have h8 : (8 : Int).toNat = 8 := rfl
        rw [h8] at h
        have hmin : min num 8 = 8 := min_eq_right (by omega)
        simp only [hneg, hbig, if_true, if_false, hmin]
        exact_mod_cast h
      · have h := (hbound num.toNat).2
        have hmin : min num 8 = num := min_eq_left (by omega)
        simp only [hneg, hbig, if_false, hmin]
        omega

/-! ## Press classification -/

theorem isPressesBufferErrorLoop_eq_true_iff (w : World) (presses : List Int) :
    isPressesBufferErrorLoop w presses = true ↔ ∃ p ∈ presses, p ∉ w.bufButtonTargets := by
  induction presses with
  | nil => simp [isPressesBufferErrorLoop]
  | cons p rest ih =>
    by_cases h : p ∈ w.bufButtonTargets
    · have hin : inTargetsBuffer w p = true := (inBuffer_eq_true_iff _ _).mpr h
      simp [isPressesBufferErrorLoop, hin, ih, h]
    · have hin : inTargetsBuffer w p = false := (inBuffer_eq_false_iff _ _).mpr h
      simp [isPressesBufferErrorLoop, hin, h]

theorem isPressesBufferMatchLoop_eq_true_iff (w : World) (targets : List Int) :
    isPressesBufferMatchLoop w targets = true ↔ ∀ t ∈ targets, t ∈ w.bufButtonPresses := by
  induction targets with
  | nil => simp [isPressesBufferMatchLoop]
  | cons t rest ih =>
    by_cases h : t ∈ w.bufButtonPresses
    · have hin : inPressesBuffer w t = true := (inBuffer_eq_true_iff _ _).mpr h
      simp [isPressesBufferMatchLoop, hin, ih, h]
    · have hin : inPressesBuffer w t = false := (inBuffer_eq_false_iff _ _).mpr h
      simp [isPressesBufferMatchLoop, hin, h]

theorem isPressesBufferMatch_eq_true_iff (w : World) :
    isPressesBufferMatch w = true ↔
      w.bufButtonTargets.length = w.bufButtonPresses.length ∧
        ∀ t ∈ w.bufButtonTargets, t ∈ w.bufButtonPresses := by
  unfold isPressesBufferMatch
  by_cases h : w.bufButtonTargets.length = w.bufButtonPresses.length
  · simp [h, isPressesBufferMatchLoop_eq_true_iff]
  · simp [h]

/-- C2 (match law). For every target buffer and every press buffer, both with pairwise distinct
entries, `isPressesBufferMatch` returns `true` if and only if the set of recorded presses equals
the set of targets; in particular it returns `false` when the presses form a proper subset or a
proper superset of the targets. -/
theorem isPressesBufferMatch_iff_same_set (w : World)
    (hT : w.bufButtonTargets.Nodup) (hP : w.bufButtonPresses.Nodup) :
    (isPressesBufferMatch w = true ↔ ∀ x, x ∈ w.bufButtonPresses ↔ x ∈ w.bufButtonTargets) ∧
    ((w.bufButtonPresses ⊆ w.bufButtonTargets ∧ ¬ w.bufButtonTargets ⊆ w.bufButtonPresses) →
      isPressesBufferMatch w = false) ∧
    ((w.bufButtonTargets ⊆ w.bufButtonPresses ∧ ¬ w.bufButtonPresses ⊆ w.bufButtonTargets) →
      isPressesBufferMatch w = false) := by
  have key : isPressesBufferMatch w = true ↔
      ∀ x, x ∈ w.bufButtonPresses ↔ x ∈ w.bufButtonTargets := by
    rw [isPressesBufferMatch_eq_true_iff]
    constructor
    · rintro ⟨hlen, hsub⟩
      have hperm : w.bufButtonTargets.Perm w.bufButtonPresses :=
        (List.subperm_of_subset hT hsub).perm_of_length_le (le_of_eq hlen.symm)
      intro x
      exact (hperm.mem_iff).symm
    · intro hset
      have hperm : w.bufButtonTargets.Perm w.bufButtonPresses :=
        (List.perm_ext_iff_of_nodup hT hP).mpr fun x => (hset x).symm
      exact ⟨hperm.length_eq, fun t ht => (hset t).mpr ht⟩
  refine ⟨key, ?_, ?_⟩
  · rintro ⟨_, hnot⟩
    cases hm : isPressesBufferMatch w
    · rfl
    · exact absurd (fun x hx => ((key.mp hm) x).mpr hx) hnot
  · rintro ⟨_, hnot⟩
    cases hm : isPressesBufferMatch w
    · rfl
    · exact absurd (fun x hx => ((key.mp hm) x).mp hx) hnot

/-- Witness of C2: targets 1, 3, 5 and presses 3, 1, 5. -/
theorem isPressesBufferMatch_iff_same_set_witness :
    (roundWorld 0 0 1000 [1, 3, 5] [3, 1, 5]).bufButtonTargets.Nodup ∧
    (roundWorld 0 0 1000 [1, 3, 5] [3, 1, 5]).bufButtonPresses.Nodup ∧
    isPressesBufferMatch (roundWorld 0 0 1000 [1, 3, 5] [3, 1, 5]) = true ∧
    ((isPressesBufferMatch (roundWorld 0 0 1000 [1, 3, 5] [3, 1, 5]) = true ↔
      ∀ x, x ∈ (roundWorld 0 0 1000 [1, 3, 5] [3, 1, 5]).bufButtonPresses ↔
        x ∈ (roundWorld 0 0 1000 [1, 3, 5] [3, 1, 5]).bufButtonTargets)) :=
  ⟨by decide, by decide, by decide,
    (isPressesBufferMatch_iff_same_set (roundWorld 0 0 1000 [1, 3, 5] [3, 1, 5])
      (by decide) (by decide)).1⟩

/-- C3 (error law). For every target buffer and every press buffer, `isPressesBufferError`
returns `true` if and only if at least one recorded press is not a target; it returns `false`
exactly when every recorded press is a target, whatever their order and number. -/
theorem isPressesBufferError_iff_press_outside (w : World) :
    (isPressesBufferError w = true ↔ ∃ p ∈ w.bufButtonPresses, p ∉ w.bufButtonTargets) ∧
    (isPressesBufferError w = false ↔ ∀ p ∈ w.bufButtonPresses, p ∈ w.bufButtonTargets) := by
  have key : isPressesBufferError w = true ↔
      ∃ p ∈ w.bufButtonPresses, p ∉ w.bufButtonTargets :=
    isPressesBufferErrorLoop_eq_true_iff w w.bufButtonPresses
  refine ⟨key, ?_⟩
  constructor
  · intro hfalse p hp
    by_contra hnot
    have htrue := key.mpr ⟨p, hp, hnot⟩
    rw [hfalse] at htrue
    exact Bool.false_ne_true htrue
  · intro hall
    cases herr : isPressesBufferError w
    · rfl
    · obtain ⟨p, hp, hnot⟩ := key.mp herr
      exact absurd (hall p hp) hnot

/-! ## Colour classes -/

theorem random_palette_index (r : Nat) :
    (random r 0 LED_COLOR_PALETTE_SIZE).toNat % 256 = r % 5 := by
  simp only [random, LED_COLOR_PALETTE_SIZE]
  norm_num
  have h : ((r : Int) % 5).toNat = r % 5 := by omega
  rw [h]
  omega

theorem refreshErrorPaletteBuffer_palette (phase : Int) (w : World) :
    (refreshErrorPaletteBuffer phase w).bufErrorPalette =
      if phase = 0 then [3] else if phase = 1 then [1, 2] else [2, 3, 4] := by
  unfold refreshErrorPaletteBuffer
  split_ifs <;> rfl

/-- What a returning run of the rejection loop gives: a palette index whose membership in the
error buffer is the requested one, in a world that differs by the consumed draws only. -/
theorem getRandomColorIndexLoop_spec (isError : Bool) (fuel : Nat) (w : World) (idx : Nat)
    (w1 : World) (h : getRandomColorIndexLoop isError fuel w = some (idx, w1)) :
    idx < 5 ∧ inBuffer w.bufErrorPalette idx = isError ∧
      ∃ k, w1 = { w with rnd := fun n => w.rnd (n + k) } := by
  induction fuel generalizing w with
  | zero => simp [getRandomColorIndexLoop] at h
  | succ fuel ih =>
    rw [getRandomColorIndexLoop] at h
    simp only [World.draw, random_palette_index] at h
    by_cases hfound : inBuffer w.bufErrorPalette (w.rnd 0 % 5) = isError
    · simp only [hfound, bne_self_eq_false, Bool.false_eq_true, if_false, Option.some.injEq,
        Prod.mk.injEq] at h
      obtain ⟨hidx, hw⟩ := h
      subst hidx
      refine ⟨Nat.mod_lt _ (by norm_num), hfound, 1, hw.symm⟩
    · have hne : (inBuffer w.bufErrorPalette (w.rnd 0 % 5) != isError) = true := by
        cases hb : inBuffer w.bufErrorPalette (w.rnd 0 % 5) <;> cases isError <;> simp_all
      simp only [hne, if_true] at h
      obtain ⟨hlt, hcls, k, hk⟩ := ih _ h
      refine ⟨hlt, hcls, k + 1, ?_⟩
      rw [hk]
      simp only [World.mk.injEq, true_and]
      funext n
      rfl

theorem getRandomColorIndex_eq_some (fuel : Nat) (phase : Int) (isError : Bool) (w : World)
    (idx : Int) (w1 : World) (h : getRandomColorIndex fuel phase isError w = some (idx, w1)) :
    ∃ n : Nat, idx = (n : Int) ∧
      getRandomColorIndexLoop isError fuel (refreshErrorPaletteBuffer phase w) = some (n, w1) := by
  unfold getRandomColorIndex at h
  cases hloop : getRandomColorIndexLoop isError fuel (refreshErrorPaletteBuffer phase w) with
  | none => simp [hloop] at h
  | some res =>
    obtain ⟨n, w2⟩ := res
    simp only [hloop, Option.map_some', Option.some.injEq, Prod.mk.injEq] at h
    exact ⟨n, h.1.symm, by rw [h.2]⟩

theorem phaseErrorSet_mem_iff (phase : Int) (w : World) (n : Nat) (hn : n < 5) :
    ((n : Int) ∈ phaseErrorSet phase) ↔
      inBuffer (refreshErrorPaletteBuffer phase w).bufErrorPalette n = true := by
  rw [refreshErrorPaletteBuffer_palette, inBuffer_eq_true_iff]
  unfold phaseErrorSet
  interval_cases n <;> split_ifs <;> simp

theorem paletteColor_injective (i j : Nat) (hi : i < 5) (hj : j < 5)
    (h : paletteColor (i : Int) = paletteColor (j : Int)) : i = j := by
  interval_cases i <;> interval_cases j <;> first | rfl | (exact absurd h (by decide))

/-- C4 (colour-class correctness). For every phase, both values of `isError` and every stream of
draws on which `getRandomColorIndex phase isError` returns: the error buffer is the error set of
the phase (`{3}` in phase 0, `{1, 2}` in phase 1, `{2, 3, 4}` otherwise), the returned index lies
in `[0, 5)` and it belongs to that error set exactly when `isError` holds. So the colour of
`getPhaseRandomColorValid` is no error-class palette colour of the phase, and the colour of
`getPhaseRandomColorError` is no valid-class one. -/
theorem getRandomColorIndex_class (fuel : Nat) (phase : Int) (isError : Bool) (w : World)
    (idx : Int) (w1 : World) (h : getRandomColorIndex fuel phase isError w = some (idx, w1)) :
    (refreshErrorPaletteBuffer phase w).bufErrorPalette.map (fun n : Nat => (n : Int)) =
        phaseErrorSet phase ∧
    (phaseErrorSet 0 = [3] ∧ phaseErrorSet 1 = [1, 2] ∧
      ∀ p : Int, p ≠ 0 → p ≠ 1 → phaseErrorSet p = [2, 3, 4]) ∧
    0 ≤ idx ∧ idx < 5 ∧
    (idx ∈ phaseErrorSet phase ↔ isError = true) ∧
    (isError = false →
      getPhaseRandomColorValid fuel phase w = some (paletteColor idx, w1) ∧
        ∀ j ∈ phaseErrorSet phase, paletteColor j ≠ paletteColor idx) ∧
    (isError = true →
      getPhaseRandomColorError fuel phase w = some (paletteColor idx, w1) ∧
        ∀ j : Int, 0 ≤ j → j < 5 → j ∉ phaseErrorSet phase →
          paletteColor j ≠ paletteColor idx) := by
  obtain ⟨n, hidx, hloop⟩ := getRandomColorIndex_eq_some fuel phase isError w idx w1 h
  obtain ⟨hlt, hcls, _⟩ := getRandomColorIndexLoop_spec isError fuel _ n w1 hloop
  subst hidx
  have hmem : ((n : Int) ∈ phaseErrorSet phase ↔ isError = true) := by
    rw [phaseErrorSet_mem_iff phase w n hlt, hcls]
  have hset : ∀ j : Int, j ∈ phaseErrorSet phase → ∃ m : Nat, m < 5 ∧ j = (m : Int) := by
    intro j hj
    unfold phaseErrorSet at hj
    split_ifs at hj
    · simp only [List.mem_singleton] at hj
      exact ⟨3, by norm_num, hj⟩
    · simp only [List.mem_cons, List.mem_singleton, List.not_mem_nil, or_false] at hj
      rcases hj with hj | hj
      · exact ⟨1, by norm_num, hj⟩
      · exact ⟨2, by norm_num, hj⟩
    · simp only [List.mem_cons, List.mem_singleton, List.not_mem_nil, or_false] at hj
      rcases hj with hj | hj | hj
      · exact ⟨2, by norm_num, hj⟩
      · exact ⟨3, by norm_num, hj⟩
      · exact ⟨4, by norm_num, hj⟩
  refine ⟨?_, ⟨rfl, rfl, ?_⟩, Int.natCast_nonneg n, by exact_mod_cast hlt, hmem, ?_, ?_⟩
  · rw [refreshErrorPaletteBuffer_palette]
    unfold phaseErrorSet
    split_ifs <;> rfl
  · intro p h0 h1
    simp [phaseErrorSet, h0, h1]
  · intro hfalse
    subst hfalse
    refine ⟨by simp [getPhaseRandomColorValid, h], ?_⟩
    intro j hj heq
    obtain ⟨m, hm, rfl⟩ := hset j hj
    have hmn := paletteColor_injective m n hm hlt heq
    subst hmn
    have := hmem.mp hj
    exact Bool.false_ne_true this
  · intro htrue
    subst htrue
    refine ⟨by simp [getPhaseRandomColorError, h], ?_⟩
    intro j hj0 hj5 hj heq
    obtain ⟨m, rfl⟩ := Int.eq_ofNat_of_zero_le hj0
    have hm : m < 5 := by exact_mod_cast hj5
    have hmn := paletteColor_injective m n hm hlt heq
    subst hmn
    exact hj (hmem.mpr rfl)

/-- Witness of C4: in phase 1, with the draws 0, 1, 2, ..., the draw for an error colour rejects
index 0 and returns index 1. -/
theorem getRandomColorIndex_class_witness :
    getRandomColorIndex 5 1 true (roundWorld 1 0 1000 [0, 2] []) =
        some (1, { refreshErrorPaletteBuffer 1 (roundWorld 1 0 1000 [0, 2] []) with
                    rnd := fun n => n + 2 }) ∧
    (1 : Int) ∈ phaseErrorSet 1 ∧
    getPhaseRandomColorError 5 1 (roundWorld 1 0 1000 [0, 2] []) =
        some (Color 255 255 0, { refreshErrorPaletteBuffer 1 (roundWorld 1 0 1000 [0, 2] []) with
                    rnd := fun n => n + 2 }) :=
  have h := getRandomColorIndex_class 5 1 true (roundWorld 1 0 1000 [0, 2] []) 1
    { refreshErrorPaletteBuffer 1 (roundWorld 1 0 1000 [0, 2] []) with rnd := fun n => n + 2 }
    rfl
  ⟨rfl, h.2.2.2.2.1.mpr rfl, (h.2.2.2.2.2.2 rfl).1⟩

/-! ## What each function leaves alone -/

theorem ledSetPixelColor_frame (n : Int) (c : Nat) (w : World) :
    ∃ leds, ledSetPixelColor n c w = { w with ledStrip := leds } := by
  unfold ledSetPixelColor
  split_ifs
  · exact ⟨_, rfl⟩
  · exact ⟨w.ledStrip, rfl⟩

theorem showTargetLedsLoop_frame (indices : List Int) (w : World) :
    ∃ leds, showTargetLedsLoop indices w = { w with ledStrip := leds } := by
  induction indices generalizing w with
  | nil => exact ⟨w.ledStrip, rfl⟩
  | cons i rest ih =>
    rw [showTargetLedsLoop]
    obtain ⟨l1, h1⟩ := ledSetPixelColor_frame i
      (if (inPressesBuffer w i || !decide ((w.bufButtonColors.length : Int) ≥ i + 1)) = true
        then 0 else w.bufButtonColors.getD i.toNat 0) w
    obtain ⟨l2, h2⟩ := ih (ledSetPixelColor i
      (if (inPressesBuffer w i || !decide ((w.bufButtonColors.length : Int) ≥ i + 1)) = true
        then 0 else w.bufButtonColors.getD i.toNat 0) w)
    exact ⟨l2, by rw [h2, h1]⟩

theorem showTargetLeds_frame (w : World) :
    ∃ leds, showTargetLeds w = { w with ledStrip := leds } :=
  showTargetLedsLoop_frame buttonIndices w

theorem showErrorLedEffect_frame (w : World) :
    ∃ leds, showErrorLedEffect w = { w with ledStrip := leds } :=
  ⟨_, rfl⟩

theorem showSuccessPixels_frame (indices : List Int) (w : World) :
    ∃ leds rnd, showSuccessPixels indices w = { w with ledStrip := leds, rnd := rnd } := by
  induction indices generalizing w with
  | nil => exact ⟨w.ledStrip, w.rnd, rfl⟩
  | cons i rest ih =>
    rw [showSuccessPixels]
    obtain ⟨l1, h1⟩ := ledSetPixelColor_frame i (randomColor w).1 (randomColor w).2
    obtain ⟨l2, r2, h2⟩ := ih (ledSetPixelColor i (randomColor w).1 (randomColor w).2)
    refine ⟨l2, r2, ?_⟩
    show showSuccessPixels rest (ledSetPixelColor i (randomColor w).1 (randomColor w).2) = _
    rw [h2, h1]
    rfl

theorem showSuccessLedEffectLoop_frame (n : Nat) (w : World) :
    ∃ leds rnd, showSuccessLedEffectLoop n w = { w with ledStrip := leds, rnd := rnd } := by
  induction n generalizing w with
  | zero => exact ⟨w.ledStrip, w.rnd, rfl⟩
  | succ n ih =>
    rw [showSuccessLedEffectLoop]
    obtain ⟨l1, r1, h1⟩ := showSuccessPixels_frame buttonIndices (ledClear w)
    obtain ⟨l2, r2, h2⟩ := ih (showSuccessPixels buttonIndices (ledClear w))
    refine ⟨l2, r2, ?_⟩
    rw [h2, h1]
    rfl

theorem showSuccessLedEffect_frame (numLoops : Int) (w : World) :
    ∃ leds rnd, showSuccessLedEffect numLoops w = { w with ledStrip := leds, rnd := rnd } :=
  showSuccessLedEffectLoop_frame _ w

theorem pushTarget_frame (idx : Int) (w : World) :
    ∃ targets, (pushTarget idx w).2 = { w with bufButtonTargets := targets } := by
  unfold pushTarget
  split_ifs
  · exact ⟨w.bufButtonTargets, rfl⟩
  · exact ⟨w.bufButtonTargets, rfl⟩
  · exact ⟨_, rfl⟩
  · exact ⟨w.bufButtonTargets, rfl⟩

theorem randomizeTargetsLoop_frame (n : Nat) (w : World) :
    ∃ targets rnd, randomizeTargetsLoop n w = { w with bufButtonTargets := targets, rnd := rnd } := by
  induction n generalizing w with
  | zero => exact ⟨w.bufButtonTargets, w.rnd, rfl⟩
  | succ n ih =>
    rw [randomizeTargetsLoop]
    by_cases hstop : (pickRandomTarget w).1 = -1
    · simp only [hstop, if_true]
      exact ⟨w.bufButtonTargets, _, rfl⟩
    · simp only [hstop, if_false]
      obtain ⟨t1, h1⟩ := pushTarget_frame (pickRandomTarget w).1 (pickRandomTarget w).2
      obtain ⟨t2, r2, h2⟩ := ih (pushTarget (pickRandomTarget w).1 (pickRandomTarget w).2).2
      refine ⟨t2, r2, ?_⟩
      rw [h2, h1]
      rfl

theorem randomizeTargets_frame (num : Int) (w : World) :
    ∃ rnd, randomizeTargets num w =
      { w with bufButtonTargets := (randomizeTargets num w).bufButtonTargets,
               bufButtonColors := [], rnd := rnd } := by
  unfold randomizeTargets
  obtain ⟨t, r, h⟩ := randomizeTargetsLoop_frame
    (if num > BUTTONS_NUM then BUTTONS_NUM else num).toNat (clearTargets w)
  refine ⟨r, ?_⟩
  simp only [h]
  rfl

theorem getRandomColorIndex_frame (fuel : Nat) (phase : Int) (isError : Bool) (w : World)
    (idx : Int) (w1 : World) (h : getRandomColorIndex fuel phase isError w = some (idx, w1)) :
    ∃ palette rnd, w1 = { w with bufErrorPalette := palette, rnd := rnd } := by
  obtain ⟨n, _, hloop⟩ := getRandomColorIndex_eq_some fuel phase isError w idx w1 h
  obtain ⟨_, _, k, hk⟩ := getRandomColorIndexLoop_spec isError fuel _ n w1 hloop
  refine ⟨(refreshErrorPaletteBuffer phase w).bufErrorPalette, fun n => w.rnd (n + k), ?_⟩
  rw [hk]
  unfold refreshErrorPaletteBuffer
  split_ifs <;> rfl

theorem colorDraw_frame (fuel : Nat) (phase : Int) (isTarget : Bool) (w : World)
    (res : Nat × World)
    (h : (if isTarget = true then getPhaseRandomColorValid fuel phase w
      else getPhaseRandomColorError fuel phase w) = some res) :
    ∃ palette rnd, res.2 = { w with bufErrorPalette := palette, rnd := rnd } := by
  have key : ∀ isError, (getRandomColorIndex fuel phase isError w).map
      (fun r => (paletteColor r.1, r.2)) = some res →
      ∃ palette rnd, res.2 = { w with bufErrorPalette := palette, rnd := rnd } := by
    intro isError hmap
    cases hidx : getRandomColorIndex fuel phase isError w with
    | none => simp [hidx] at hmap
    | some r =>
      obtain ⟨idx, w1⟩ := r
      simp only [hidx, Option.map_some', Option.some.injEq] at hmap
      obtain ⟨p, r, hw⟩ := getRandomColorIndex_frame fuel phase isError w idx w1 hidx
      exact ⟨p, r, by rw [← hmap, hw]⟩
  cases isTarget
  · exact key true (by simpa [getPhaseRandomColorError] using h)
  · exact key false (by simpa [getPhaseRandomColorValid] using h)

theorem updateButtonColorsLoop_frame (fuel : Nat) (indices : List Int) (w w1 : World)
    (h : updateButtonColorsLoop fuel indices w = some w1) :
    ∃ palette colors rnd,
      w1 = { w with bufErrorPalette := palette, bufButtonColors := colors, rnd := rnd } := by
  induction indices generalizing w with
  | nil =>
    simp only [updateButtonColorsLoop, Option.some.injEq] at h
    exact ⟨w.bufErrorPalette, w.bufButtonColors, w.rnd, h.symm⟩
  | cons i rest ih =>
    rw [updateButtonColorsLoop] at h
    cases hd : (if inTargetsBuffer w i = true
        then getPhaseRandomColorValid fuel w.progState.currPhase w
        else getPhaseRandomColorError fuel w.progState.currPhase w) with
    | none => simp [hd] at h
    | some res =>
      simp only [hd, Option.some_bind] at h
      obtain ⟨p1, r1, h1⟩ := colorDraw_frame fuel _ _ w res hd
      obtain ⟨p2, c2, r2, h2⟩ := ih _ h
      refine ⟨p2, c2, r2, ?_⟩
      rw [h2, h1]

theorem updateButtonColorsBuffer_frame (fuel : Nat) (w w1 : World)
    (h : updateButtonColorsBuffer fuel w = some w1) :
    ∃ palette colors rnd,
      w1 = { w with bufErrorPalette := palette, bufButtonColors := colors, rnd := rnd } := by
  obtain ⟨p, c, r, h1⟩ := updateButtonColorsLoop_frame fuel buttonIndices _ w1 h
  exact ⟨p, c, r, h1⟩

/-- The targets that `updateTargets` selects in the world `w`. -/
theorem updateTargets_spec (fuel now : Nat) (w w1 : World)
    (h : updateTargets fuel now w = some w1) :
    ∃ palette colors leds rnd,
      w1 = { w with
        bufErrorPalette := palette
        bufButtonPresses := []
        bufButtonTargets :=
          (randomizeTargets (getPhaseNumTargets w.progState.currPhase w).1
            (getPhaseNumTargets w.progState.currPhase w).2).bufButtonTargets
        bufButtonColors := colors
        progState := { w.progState with startMillis := now }
        ledStrip := leds
        rnd := rnd } := by
  unfold updateTargets at h
  cases hcol : updateButtonColorsBuffer fuel
      (randomizeTargets (getPhaseNumTargets w.progState.currPhase w).1
        (getPhaseNumTargets w.progState.currPhase w).2) with
  | none =>
    have : updateButtonColorsBuffer fuel
      (randomizeTargets (getPhaseNumTargets w.progState.currPhase w).1
        (getPhaseNumTargets w.progState.currPhase w).2) ≠ none := by
      intro hn
      simp [hn] at h
    exact absurd hcol this
  | some w3 =>
    have h' : some ({ showTargetLeds w3 with
        progState := { (showTargetLeds w3).progState with startMillis := now }
        bufButtonPresses := [] } : World) = some w1 := by
      rw [← h]
      simp [hcol]
    simp only [Option.some.injEq] at h'
    obtain ⟨p, c, r, h3⟩ := updateButtonColorsBuffer_frame fuel _ w3 hcol
    obtain ⟨r2, h2⟩ := randomizeTargets_frame (getPhaseNumTargets w.progState.currPhase w).1
      (getPhaseNumTargets w.progState.currPhase w).2
    obtain ⟨l4, h4⟩ := showTargetLeds_frame w3
    refine ⟨p, c, l4, r, ?_⟩
    rw [← h', h4, h3, h2]
    rfl

/-! ## The tick handler, case by case -/

theorem updateState_finished (fuel now : Nat) (w : World)
    (hfin : w.progState.isFinished = true) : updateState fuel now w = some w := by
  simp [updateState, hfin]

theorem updateState_finishing (fuel now : Nat) (w : World)
    (hfin : w.progState.isFinished = false) (hphase : w.progState.currPhase ≥ FINAL_PHASE) :
    updateState fuel now w =
      some { onFinish w with progState := { (onFinish w).progState with isFinished := true } } := by
  simp [updateState, hfin, hasFinished, hphase]

theorem updateState_locked (fuel now : Nat) (w : World)
    (hfin : w.progState.isFinished = false) (hphase : w.progState.currPhase < FINAL_PHASE)
    (hlock : w.progState.isLocked = true) : updateState fuel now w = some (ledClear w) := by
  have hnot : ¬ w.progState.currPhase ≥ FINAL_PHASE := not_le.mpr hphase
  simp [updateState, hfin, hasFinished, hnot, hlock]

theorem updateState_playing (fuel now : Nat) (w : World)
    (hfin : w.progState.isFinished = false) (hphase : w.progState.currPhase < FINAL_PHASE)
    (hlock : w.progState.isLocked = false) :
    updateState fuel now w =
      if w.progState.startMillis = 0 then updateTargets fuel now w
      else if isPressesBufferError w then some (errorAndRestart w)
      else if isExpired now w then some (errorAndRestart w)
      else if isPressesBufferMatch w then advanceProgress fuel now w
      else some (showTargetLeds w) := by
  have hnot : ¬ w.progState.currPhase ≥ FINAL_PHASE := not_le.mpr hphase
  simp [updateState, hfin, hasFinished, hnot, hlock]

theorem onFinish_frame (w : World) :
    ∃ leds rnd, onFinish w = { w with relay := true, ledStrip := leds, rnd := rnd } := by
  obtain ⟨l, r, h⟩ := showSuccessLedEffect_frame 0 (openRelay w)
  exact ⟨l, r, by rw [onFinish, h]; rfl⟩

theorem errorAndRestart_frame (w : World) :
    ∃ leds, errorAndRestart w =
      { w with
        bufButtonPresses := []
        bufButtonTargets := []
        bufButtonColors := []
        progState := { w.progState with startMillis := 0, hitStreak := 0, isLocked := true }
        ledStrip := leds
        ledButtonPhase := true } := by
  obtain ⟨l, hl⟩ := showErrorLedEffect_frame w
  refine ⟨l, ?_⟩
  rw [errorAndRestart, hl]
  rfl

theorem onPress_frame (idx : Int) (w : World) :
    ∃ presses, onPress idx w = { w with bufButtonPresses := presses } := by
  simp only [onPress]
  split_ifs
  · exact ⟨w.bufButtonPresses, rfl⟩
  · exact ⟨_, rfl⟩
  · exact ⟨w.bufButtonPresses, rfl⟩

/-- The phase after a tick: unchanged, or one more when the streak of the phase is completed. -/
theorem updateState_currPhase (fuel now : Nat) (w w1 : World)
    (h : updateState fuel now w = some w1) :
    w1.progState.currPhase = w.progState.currPhase ∨
      (w1.progState.currPhase = w.progState.currPhase + 1 ∧
        w.progState.isLocked = false ∧ w.progState.isFinished = false ∧
        w.progState.currPhase < FINAL_PHASE ∧
        w.progState.startMillis ≠ 0 ∧ isPressesBufferError w = false ∧
        isExpired now w = false ∧ isPressesBufferMatch w = true ∧
        w.progState.hitStreak + 1 ≥ getPhaseHitStreak w.progState.currPhase) := by
  cases hfin : w.progState.isFinished with
  | true =>
    rw [updateState_finished fuel now w hfin] at h
    left
    rw [← Option.some.inj h]
  | false =>
    by_cases hphase : w.progState.currPhase ≥ FINAL_PHASE
    · rw [updateState_finishing fuel now w hfin hphase] at h
      obtain ⟨l, r, hf⟩ := onFinish_frame w
      left
      rw [← Option.some.inj h, hf]
    · have hlt : w.progState.currPhase < FINAL_PHASE := not_le.mp hphase
      cases hlock : w.progState.isLocked with
      | true =>
        rw [updateState_locked fuel now w hfin hlt hlock] at h
        left
        rw [← Option.some.inj h]
        rfl
      | false =>
        rw [updateState_playing fuel now w hfin hlt hlock] at h
        split_ifs at h with h0 herr hexp hmatch
        · obtain ⟨p, c, l, r, hw⟩ := updateTargets_spec fuel now w w1 h
          left
          rw [hw]
        · obtain ⟨l, he⟩ := errorAndRestart_frame w
          left
          rw [← Option.some.inj h, he]
        · obtain ⟨l, he⟩ := errorAndRestart_frame w
          left
          rw [← Option.some.inj h, he]
        · unfold advanceProgress at h
          simp only at h
          split_ifs at h with hnew
          · right
            obtain ⟨l, r, hs⟩ := showSuccessLedEffect_frame 1
              { w with progState := { w.progState with hitStreak := w.progState.hitStreak + 1 } }
            refine ⟨?_, rfl, rfl, hlt, h0, by simpa using herr, by simpa using hexp, hmatch, ?_⟩
            · rw [← Option.some.inj h, hs]
            · simpa using hnew
          · obtain ⟨p, c, l, r, hw⟩ := updateTargets_spec fuel now _ w1 h
            left
            rw [hw]
        · obtain ⟨l, hs⟩ := showTargetLeds_frame w
          left
          rw [← Option.some.inj h, hs]

/-- C5 (monotonic phase). For every world and every single event after boot (a tick, a press of
a button, an unlock press), when the handler returns, the resulting `currPhase` is the previous
one or the previous one plus 1; it is the previous one plus 1 only when the event is a tick taken
unlocked and unfinished, with a round active, no erroneous press, no expiry, the presses matching
the targets and `hitStreak + 1 ≥ getPhaseHitStreak currPhase`. -/
theorem step_currPhase_monotonic (fuel : Nat) (ev : Event) (w w1 : World)
    (h : step fuel ev w = some w1) :
    w1.progState.currPhase = w.progState.currPhase ∨
      (w1.progState.currPhase = w.progState.currPhase + 1 ∧
        (∃ now, ev = Event.tick now ∧ isExpired now w = false) ∧
        w.progState.isLocked = false ∧ w.progState.isFinished = false ∧
        w.progState.startMillis ≠ 0 ∧ isPressesBufferError w = false ∧
        isPressesBufferMatch w = true ∧
        w.progState.hitStreak + 1 ≥ getPhaseHitStreak w.progState.currPhase) := by
  cases ev with
  | tick now =>
    rcases updateState_currPhase fuel now w w1 h with hsame | ⟨hnext, h1, h2, _, h4, h5, h6, h7, h8⟩
    · exact Or.inl hsame
    · exact Or.inr ⟨hnext, ⟨now, rfl, h6⟩, h1, h2, h4, h5, h7, h8⟩
  | press idx =>
    left
    simp only [step, Option.some.injEq] at h
    obtain ⟨p, hp⟩ := onPress_frame idx w
    rw [← h, hp]
  | phasePress now =>
    left
    simp only [step, onPhasePress] at h
    split_ifs at h with hl
    · rw [← Option.some.inj h]
    · obtain ⟨p, c, l, r, hw⟩ := updateTargets_spec fuel now _ w1 h
      rw [hw]

/-- Witness of C5: the tick of scenario D takes the phase from 2 to 3. -/
theorem step_currPhase_monotonic_witness :
    step 5 (Event.tick 2000) scenarioD = some scenarioDNext ∧
    scenarioD.progState.currPhase = 2 ∧ scenarioDNext.progState.currPhase = 3 ∧
    (scenarioDNext.progState.currPhase = scenarioD.progState.currPhase ∨
      (scenarioDNext.progState.currPhase = scenarioD.progState.currPhase + 1 ∧
        (∃ now, Event.tick 2000 = Event.tick now ∧ isExpired now scenarioD = false) ∧
        scenarioD.progState.isLocked = false ∧ scenarioD.progState.isFinished = false ∧
        scenarioD.progState.startMillis ≠ 0 ∧ isPressesBufferError scenarioD = false ∧
        isPressesBufferMatch scenarioD = true ∧
        scenarioD.progState.hitStreak + 1 ≥ getPhaseHitStreak scenarioD.progState.currPhase)) :=
  ⟨rfl, rfl, rfl, step_currPhase_monotonic 5 (Event.tick 2000) scenarioD scenarioDNext rfl⟩

/-! ## The lock -/

/-- The fields of the game that a locked engine does not touch. -/
theorem updateState_of_locked (fuel now : Nat) (w : World)
    (hlock : w.progState.isLocked = true) :
    ∃ w1, updateState fuel now w = some w1 ∧
      w1.bufButtonTargets = w.bufButtonTargets ∧ w1.bufButtonColors = w.bufButtonColors ∧
      w1.bufButtonPresses = w.bufButtonPresses ∧
      w1.progState.startMillis = w.progState.startMillis ∧
      w1.progState.currPhase = w.progState.currPhase ∧
      w1.progState.hitStreak = w.progState.hitStreak ∧ w1.progState.isLocked = true := by
  cases hfin : w.progState.isFinished with
  | true =>
    exact ⟨w, updateState_finished fuel now w hfin, rfl, rfl, rfl, rfl, rfl, rfl, hlock⟩
  | false =>
    by_cases hphase : w.progState.currPhase ≥ FINAL_PHASE
    · obtain ⟨l, r, hf⟩ := onFinish_frame w
      refine ⟨_, updateState_finishing fuel now w hfin hphase, ?_⟩
      rw [hf]
      exact ⟨rfl, rfl, rfl, rfl, rfl, rfl, hlock⟩
    · exact ⟨_, updateState_locked fuel now w hfin (not_le.mp hphase) hlock,
        rfl, rfl, rfl, rfl, rfl, rfl, hlock⟩

theorem onPress_of_locked (idx : Int) (w : World) (hlock : w.progState.isLocked = true) :
    onPress idx w = w := by
  simp [onPress, hlock]

/-- C6 (lock invariant). In every world with `isLocked = true`, a tick returns and leaves the
target buffer, the colour buffer, the press buffer, `startMillis`, `currPhase` and `hitStreak`
unchanged and keeps `isLocked` true, and a press of a button leaves the whole world unchanged;
so every sequence of ticks and button presses without an unlock press starts no round and
records no press. -/
theorem locked_no_round_no_press (fuel now : Nat) (idx : Int) (w : World)
    (hlock : w.progState.isLocked = true) :
    (∃ w1, updateState fuel now w = some w1 ∧
      w1.bufButtonTargets = w.bufButtonTargets ∧ w1.bufButtonColors = w.bufButtonColors ∧
      w1.bufButtonPresses = w.bufButtonPresses ∧
      w1.progState.startMillis = w.progState.startMillis ∧
      w1.progState.currPhase = w.progState.currPhase ∧
      w1.progState.hitStreak = w.progState.hitStreak ∧ w1.progState.isLocked = true) ∧
    onPress idx w = w ∧
    (∀ events : List Event, (∀ ev ∈ events, ev.isUnlock = false) →
      ∃ w1, runEvents fuel events w = some w1 ∧
        w1.bufButtonTargets = w.bufButtonTargets ∧ w1.bufButtonColors = w.bufButtonColors ∧
        w1.bufButtonPresses = w.bufButtonPresses ∧
        w1.progState.startMillis = w.progState.startMillis ∧
        w1.progState.currPhase = w.progState.currPhase ∧
        w1.progState.hitStreak = w.progState.hitStreak ∧ w1.progState.isLocked = true) := by
  refine ⟨updateState_of_locked fuel now w hlock, onPress_of_locked idx w hlock, ?_⟩
  intro events
  induction events generalizing w with
  | nil =>
    intro _
    exact ⟨w, rfl, rfl, rfl, rfl, rfl, rfl, rfl, hlock⟩
  | cons ev rest ih =>
    intro hno
    have hrest : ∀ e ∈ rest, e.isUnlock = false := fun e he => hno e (List.mem_cons_of_mem _ he)
    have hev : ev.isUnlock = false := hno ev (List.mem_cons_self _ _)
    cases ev with
    | tick t =>
      obtain ⟨w1, hstep, h1, h2, h3, h4, h5, h6, h7⟩ := updateState_of_locked fuel t w hlock
      obtain ⟨w2, hrun, g1, g2, g3, g4, g5, g6, g7⟩ := ih w1 h7 hrest
      refine ⟨w2, ?_, g1.trans h1, g2.trans h2, g3.trans h3, g4.trans h4, g5.trans h5,
        g6.trans h6, g7⟩
      simp only [runEvents, step, hstep, Option.some_bind]
      exact hrun
    | press i =>
      obtain ⟨w2, hrun, g⟩ := ih w hlock hrest
      refine ⟨w2, ?_, g⟩
      simp only [runEvents, step, onPress_of_locked i w hlock, Option.some_bind]
      exact hrun
    | phasePress t =>
      simp [Event.isUnlock] at hev

/-- Witness of C6: the world after boot, locked in phase 0. -/
theorem locked_no_round_no_press_witness :
    (setup scenarioD).progState.isLocked = true ∧
    onPress 4 (setup scenarioD) = setup scenarioD ∧
    (∃ w1, updateState 5 2100 (setup scenarioD) = some w1 ∧
      w1.bufButtonTargets = (setup scenarioD).bufButtonTargets ∧
      w1.bufButtonColors = (setup scenarioD).bufButtonColors ∧
      w1.bufButtonPresses = (setup scenarioD).bufButtonPresses ∧
      w1.progState.startMillis = (setup scenarioD).progState.startMillis ∧
      w1.progState.currPhase = (setup scenarioD).progState.currPhase ∧
      w1.progState.hitStreak = (setup scenarioD).progState.hitStreak ∧
      w1.progState.isLocked = true) :=
  ⟨rfl, (locked_no_round_no_press 5 2100 4 (setup scenarioD) rfl).2.1,
    (locked_no_round_no_press 5 2100 4 (setup scenarioD) rfl).1⟩

/-! ## The relay -/

theorem advanceProgress_newPhase (fuel now : Nat) (w : World)
    (hstreak : w.progState.hitStreak + 1 ≥ getPhaseHitStreak w.progState.currPhase) :
    ∃ leds rnd, advanceProgress fuel now w =
      some { w with
        progState :=
          { w.progState with hitStreak := 0, currPhase := w.progState.currPhase + 1,
                             isLocked := true }
        ledStrip := leds
        ledButtonPhase := true
        rnd := rnd } := by
  obtain ⟨l, r, hs⟩ := showSuccessLedEffect_frame 1
    { w with progState := { w.progState with hitStreak := w.progState.hitStreak + 1 } }
  refine ⟨l, r, ?_⟩
  unfold advanceProgress
  simp only [hstreak, decide_True, if_true, hs]

theorem advanceProgress_sameRound (fuel now : Nat) (w : World)
    (hstreak : w.progState.hitStreak + 1 < getPhaseHitStreak w.progState.currPhase) :
    advanceProgress fuel now w =
      updateTargets fuel now
        { w with progState := { w.progState with hitStreak := w.progState.hitStreak + 1 } } := by
  have hnot : ¬ w.progState.hitStreak + 1 ≥ getPhaseHitStreak w.progState.currPhase :=
    not_le.mpr hstreak
  unfold advanceProgress
  simp only [hnot, decide_False, Bool.false_eq_true, if_false]

/-- A handler other than the finishing tick leaves the relay and `isFinished` as they are, and
no handler lowers the phase. -/
theorem step_relay_isFinished (fuel : Nat) (ev : Event) (w w1 : World)
    (h : step fuel ev w = some w1) :
    w.progState.currPhase ≤ w1.progState.currPhase ∧
    ((w1.relay = w.relay ∧ w1.progState.isFinished = w.progState.isFinished) ∨
      (w.progState.currPhase ≥ FINAL_PHASE ∧ w1.relay = true ∧
        w1.progState.isFinished = true)) := by
  cases ev with
  | tick now =>
    simp only [step] at h
    cases hfin : w.progState.isFinished with
    | true =>
      rw [updateState_finished fuel now w hfin] at h
      rw [← Option.some.inj h]
      exact ⟨le_refl _, Or.inl ⟨rfl, hfin⟩⟩
    | false =>
      by_cases hphase : w.progState.currPhase ≥ FINAL_PHASE
      · rw [updateState_finishing fuel now w hfin hphase] at h
        obtain ⟨l, r, hf⟩ := onFinish_frame w
        rw [← Option.some.inj h, hf]
        exact ⟨le_refl _, Or.inr ⟨hphase, rfl, rfl⟩⟩
      · have hlt : w.progState.currPhase < FINAL_PHASE := not_le.mp hphase
        cases hlock : w.progState.isLocked with
        | true =>
          rw [updateState_locked fuel now w hfin hlt hlock] at h
          rw [← Option.some.inj h]
          exact ⟨le_refl _, Or.inl ⟨rfl, hfin⟩⟩
        | false =>
          rw [updateState_playing fuel now w hfin hlt hlock] at h
          split_ifs at h with h0 herr hexp hmatch
          · obtain ⟨p, c, l, r, hw⟩ := updateTargets_spec fuel now w w1 h
            rw [hw]
            exact ⟨le_refl _, Or.inl ⟨rfl, hfin⟩⟩
          · obtain ⟨l, he⟩ := errorAndRestart_frame w
            rw [← Option.some.inj h, he]
            exact ⟨le_refl _, Or.inl ⟨rfl, hfin⟩⟩
          · obtain ⟨l, he⟩ := errorAndRestart_frame w
            rw [← Option.some.inj h, he]
            exact ⟨le_refl _, Or.inl ⟨rfl, hfin⟩⟩
          · by_cases hstreak :
                w.progState.hitStreak + 1 ≥ getPhaseHitStreak w.progState.currPhase
            · obtain ⟨l, r, ha⟩ := advanceProgress_newPhase fuel now w hstreak
              rw [ha] at h
              rw [← Option.some.inj h]
              exact ⟨by simp, Or.inl ⟨rfl, hfin⟩⟩
            · rw [advanceProgress_sameRound fuel now w (not_le.mp hstreak)] at h
              obtain ⟨p, c, l, r, hw⟩ := updateTargets_spec fuel now _ w1 h
              rw [hw]
              exact ⟨le_refl _, Or.inl ⟨rfl, hfin⟩⟩
          · obtain ⟨l, hs⟩ := showTargetLeds_frame w
            rw [← Option.some.inj h, hs]
            exact ⟨le_refl _, Or.inl ⟨rfl, hfin⟩⟩
  | press idx =>
    simp only [step, Option.some.injEq] at h
    obtain ⟨p, hp⟩ := onPress_frame idx w
    rw [← h, hp]
    exact ⟨le_refl _, Or.inl ⟨rfl, rfl⟩⟩
  | phasePress now =>
    simp only [step, onPhasePress] at h
    split_ifs at h with hl
    · rw [← Option.some.inj h]
      exact ⟨le_refl _, Or.inl ⟨rfl, rfl⟩⟩
    · obtain ⟨p, c, l, r, hw⟩ := updateTargets_spec fuel now _ w1 h
      rw [hw]
      exact ⟨le_refl _, Or.inl ⟨rfl, rfl⟩⟩

/-- C7 (relay). In every reachable world (from the world that `setup` leaves, with the relay
closed by `initRelay`, under any sequence of ticks, button presses and unlock presses), the relay
is open if and only if `isFinished` is true, and `isFinished` is true only if
`currPhase ≥ FINAL_PHASE = 3`; the relay is not open while `currPhase < FINAL_PHASE`. -/
theorem relay_open_iff_finished (w : World) (hreach : Reachable w) :
    FINAL_PHASE = 3 ∧
    (w.relay = true ↔ w.progState.isFinished = true) ∧
    (w.progState.isFinished = true → w.progState.currPhase ≥ FINAL_PHASE) ∧
    (w.progState.currPhase < FINAL_PHASE → w.relay = false) := by
  have inv : w.relay = w.progState.isFinished ∧
      (w.progState.isFinished = true → w.progState.currPhase ≥ FINAL_PHASE) := by
    induction hreach with
    | boot w0 =>
      constructor
      · rfl
      · intro hf
        exact absurd hf (by simp [setup, initRelay, lockRelay, initLeds, ledClear, initState])
    | next fuel ev w w1 _ hstep ih =>
      obtain ⟨hle, hcase⟩ := step_relay_isFinished fuel ev w w1 hstep
      rcases hcase with ⟨hr, hf⟩ | ⟨hphase, hr, hf⟩
      · refine ⟨by rw [hr, hf]; exact ih.1, ?_⟩
        intro hfin
        rw [hf] at hfin
        exact le_trans (ih.2 hfin) hle
      · exact ⟨by rw [hr, hf], fun _ => le_trans hphase hle⟩
  refine ⟨rfl, by rw [inv.1], inv.2, ?_⟩
  intro hlt
  cases hr : w.relay
  · rfl
  · have hfin : w.progState.isFinished = true := by rw [← inv.1]; exact hr
    exact absurd (inv.2 hfin) (not_le.mpr hlt)

/-! ## Completing a streak -/

/-- Phase advance, for the rounds that the expiry test of the code lets through. For every phase
below `FINAL_PHASE` and every unlocked, unfinished world with a round active, no erroneous press,
`isExpired` returning `false`, the presses matching the targets and `hitStreak + 1` at least the
required streak (6 at phase 0, 4 at phase 1, 3 from phase 2 on): one tick returns with
`hitStreak = 0`, the phase one higher and `isLocked = true`. From phase 2 (scenario D) the new
phase is `FINAL_PHASE = 3`, and the following tick opens the relay and sets `isFinished`. A round
that is within its span but that `isExpired` rejects, near the wrap of the clock, is restarted
instead. -/
theorem streak_completed_advances_phase (fuel now : Nat) (w : World)
    (hphase : w.progState.currPhase < FINAL_PHASE)
    (hlock : w.progState.isLocked = false) (hfin : w.progState.isFinished = false)
    (hround : w.progState.startMillis ≠ 0) (herr : isPressesBufferError w = false)
    (hexp : isExpired now w = false) (hmatch : isPressesBufferMatch w = true)
    (hstreak : w.progState.hitStreak + 1 ≥ getPhaseHitStreak w.progState.currPhase) :
    (getPhaseHitStreak 0 = 6 ∧ getPhaseHitStreak 1 = 4 ∧
      ∀ p : Int, p ≥ 2 → getPhaseHitStreak p = 3) ∧
    ∃ w1, updateState fuel now w = some w1 ∧
      w1.progState.hitStreak = 0 ∧ w1.progState.currPhase = w.progState.currPhase + 1 ∧
      w1.progState.isLocked = true ∧
      (w.progState.currPhase = 2 →
        w1.progState.currPhase = FINAL_PHASE ∧
        ∀ fuel2 now2 : Nat, ∃ w2, updateState fuel2 now2 w1 = some w2 ∧
          w2.relay = true ∧ w2.progState.isFinished = true ∧
          w2.progState.currPhase = FINAL_PHASE ∧ w2.progState.hitStreak = 0) := by
  constructor
  · refine ⟨rfl, rfl, ?_⟩
    intro p hp
    have h0 : p ≠ 0 := by omega
    have h1 : p ≠ 1 := by omega
    simp [getPhaseHitStreak, h0, h1]
  · obtain ⟨l, r, ha⟩ := advanceProgress_newPhase fuel now w hstreak
    have htick : updateState fuel now w = advanceProgress fuel now w := by
      rw [updateState_playing fuel now w hfin hphase hlock]
      simp [hround, herr, hexp, hmatch]
    refine ⟨_, htick.trans ha, rfl, rfl, rfl, ?_⟩
    intro h2
    refine ⟨by simp [h2, FINAL_PHASE], ?_⟩
    intro fuel2 now2
    obtain ⟨l2, r2, hf⟩ := onFinish_frame
      { w with
        progState :=
          { w.progState with hitStreak := 0, currPhase := w.progState.currPhase + 1,
                             isLocked := true }
        ledStrip := l
        ledButtonPhase := true
        rnd := r }
    refine ⟨_, updateState_finishing fuel2 now2 _ hfin (by simp [h2, FINAL_PHASE]), ?_⟩
    rw [hf]
    exact ⟨rfl, rfl, by simp [h2, FINAL_PHASE], rfl⟩

/-- Scenario D, phase 2 with streak 2, away from the wrap of the clock. -/
theorem streak_completed_advances_phase_witness :
    scenarioD.progState.currPhase = 2 ∧ scenarioD.progState.hitStreak = 2 ∧
    ∃ w1, updateState 5 2000 scenarioD = some w1 ∧
      w1.progState.hitStreak = 0 ∧ w1.progState.currPhase = scenarioD.progState.currPhase + 1 ∧
      w1.progState.isLocked = true ∧
      (scenarioD.progState.currPhase = 2 →
        w1.progState.currPhase = FINAL_PHASE ∧
        ∀ fuel2 now2 : Nat, ∃ w2, updateState fuel2 now2 w1 = some w2 ∧
          w2.relay = true ∧ w2.progState.isFinished = true ∧
          w2.progState.currPhase = FINAL_PHASE ∧ w2.progState.hitStreak = 0) :=
  ⟨rfl, rfl,
    (streak_completed_advances_phase 5 2000 scenarioD (by decide) rfl rfl (by decide)
      (by decide) (by decide) (by decide) (by decide)).2⟩

/-! ## Error and expiry -/

/-- C10 (error restart). For every unlocked, unfinished world with `currPhase < FINAL_PHASE` and
a round active, if some recorded press is outside the target set, or the round is expired
(whether or not the presses match the targets), then one tick returns and afterwards the press
buffer, the target buffer and the colour buffer are empty, `startMillis` is 0, `hitStreak` is 0,
`isLocked` is true, and `currPhase` and `isFinished` are unchanged. -/
theorem error_or_expiry_restarts (fuel now : Nat) (w : World)
    (hphase : w.progState.currPhase < FINAL_PHASE)
    (hlock : w.progState.isLocked = false) (hfin : w.progState.isFinished = false)
    (hround : w.progState.startMillis ≠ 0)
    (hfail : (∃ p ∈ w.bufButtonPresses, p ∉ w.bufButtonTargets) ∨ isExpired now w = true) :
    ∃ w1, updateState fuel now w = some w1 ∧
      w1.bufButtonPresses = [] ∧ w1.bufButtonTargets = [] ∧ w1.bufButtonColors = [] ∧
      w1.progState.startMillis = 0 ∧ w1.progState.hitStreak = 0 ∧
      w1.progState.isLocked = true ∧
      w1.progState.currPhase = w.progState.currPhase ∧
      w1.progState.isFinished = w.progState.isFinished := by
  have htick : updateState fuel now w = some (errorAndRestart w) := by
    rw [updateState_playing fuel now w hfin hphase hlock]
    simp only [hround, if_false]
    rcases hfail with hout | hexp
    · have herr : isPressesBufferError w = true :=
        (isPressesBufferErrorLoop_eq_true_iff w w.bufButtonPresses).mpr hout
      simp [herr]
    · simp [hexp]
  obtain ⟨l, he⟩ := errorAndRestart_frame w
  refine ⟨_, htick, ?_⟩
  rw [he]
  exact ⟨rfl, rfl, rfl, rfl, rfl, rfl, rfl, rfl⟩

/-- Witness of C10: scenario B (phase 0, targets 1, 3, 5, press 2) and scenario C (phase 1,
targets 0, 2, 4, 6, no press, 6001 ms after the start). -/
theorem error_or_expiry_restarts_witness :
    (∃ w1, updateState 5 2000 (roundWorld 0 0 1000 [1, 3, 5] [2]) = some w1 ∧
      w1.bufButtonPresses = [] ∧ w1.bufButtonTargets = [] ∧ w1.bufButtonColors = [] ∧
      w1.progState.startMillis = 0 ∧ w1.progState.hitStreak = 0 ∧
      w1.progState.isLocked = true ∧
      w1.progState.currPhase = (roundWorld 0 0 1000 [1, 3, 5] [2]).progState.currPhase ∧
      w1.progState.isFinished = (roundWorld 0 0 1000 [1, 3, 5] [2]).progState.isFinished) ∧
    (∃ w1, updateState 5 7001 (roundWorld 1 0 1000 [0, 2, 4, 6] []) = some w1 ∧
      w1.bufButtonPresses = [] ∧ w1.bufButtonTargets = [] ∧ w1.bufButtonColors = [] ∧
      w1.progState.startMillis = 0 ∧ w1.progState.hitStreak = 0 ∧
      w1.progState.isLocked = true ∧
      w1.progState.currPhase = (roundWorld 1 0 1000 [0, 2, 4, 6] []).progState.currPhase ∧
      w1.progState.isFinished = (roundWorld 1 0 1000 [0, 2, 4, 6] []).progState.isFinished) :=
  ⟨error_or_expiry_restarts 5 2000 (roundWorld 0 0 1000 [1, 3, 5] [2]) (by decide) rfl rfl
      (by decide) (Or.inl ⟨2, by decide, by decide⟩),
    error_or_expiry_restarts 5 7001 (roundWorld 1 0 1000 [0, 2, 4, 6] []) (by decide) rfl rfl
      (by decide) (Or.inr (by decide))⟩

/-! ## Termination of the colour draws -/

theorem fairDraws_shift (rnd : Nat → Nat) (j : Nat) (h : FairDraws rnd) :
    FairDraws (fun n => rnd (n + j)) := by
  intro start c hc
  obtain ⟨k, hk⟩ := h (start + j) c hc
  refine ⟨k, ?_⟩
  have hidx : start + k + j = start + j + k := by omega
  simp only [hidx]
  exact hk

theorem countingDraws_fair : FairDraws countingDraws := by
  intro start c hc
  refine ⟨(c + 5 - start % 5) % 5, ?_⟩
  simp only [countingDraws]
  omega

/-- The rejection loop returns as soon as the stream holds a draw of the wanted class within the
first `fuel` draws. -/
theorem getRandomColorIndexLoop_returns (isError : Bool) (k : Nat) (w : World) (fuel : Nat)
    (hk : inBuffer w.bufErrorPalette (w.rnd k % 5) = isError) (hfuel : k < fuel) :
    ∃ res, getRandomColorIndexLoop isError fuel w = some res := by
  induction k generalizing w fuel with
  | zero =>
    obtain ⟨f, rfl⟩ : ∃ f, fuel = f + 1 := ⟨fuel - 1, by omega⟩
    rw [getRandomColorIndexLoop]
    simp only [World.draw, random_palette_index, hk, bne_self_eq_false, Bool.false_eq_true,
      if_false]
    exact ⟨_, rfl⟩
  | succ k ih =>
    obtain ⟨f, rfl⟩ : ∃ f, fuel = f + 1 := ⟨fuel - 1, by omega⟩
    rw [getRandomColorIndexLoop]
    simp only [World.draw, random_palette_index]
    by_cases hfound : inBuffer w.bufErrorPalette (w.rnd 0 % 5) = isError
    · simp only [hfound, bne_self_eq_false, Bool.false_eq_true, if_false]
      exact ⟨_, rfl⟩
    · have hne : (inBuffer w.bufErrorPalette (w.rnd 0 % 5) != isError) = true := by
        cases hb : inBuffer w.bufErrorPalette (w.rnd 0 % 5) <;> cases isError <;> simp_all
      simp only [hne, if_true]
      exact ih { w with rnd := fun n => w.rnd (n + 1) } f hk (by omega)

theorem getRandomColorIndexLoop_mono (isError : Bool) (fuel : Nat) (w : World)
    (res : Nat × World) (h : getRandomColorIndexLoop isError fuel w = some res)
    (fuel1 : Nat) (hle : fuel ≤ fuel1) :
    getRandomColorIndexLoop isError fuel1 w = some res := by
  induction fuel generalizing w fuel1 with
  | zero => simp [getRandomColorIndexLoop] at h
  | succ fuel ih =>
    obtain ⟨f, rfl⟩ : ∃ f, fuel1 = f + 1 := ⟨fuel1 - 1, by omega⟩
    rw [getRandomColorIndexLoop] at h ⊢
    simp only [World.draw, random_palette_index] at h ⊢
    by_cases hfound : inBuffer w.bufErrorPalette (w.rnd 0 % 5) = isError
    · simp only [hfound, bne_self_eq_false, Bool.false_eq_true, if_false] at h ⊢
      exact h
    · have hne : (inBuffer w.bufErrorPalette (w.rnd 0 % 5) != isError) = true := by
        cases hb : inBuffer w.bufErrorPalette (w.rnd 0 % 5) <;> cases isError <;> simp_all
      simp only [hne, if_true] at h ⊢
      exact ih _ h f (by omega)

/-- Both colour classes of a phase are inhabited. -/
theorem phase_class_inhabited (phase : Int) (isError : Bool) (w : World) :
    ∃ c, c < 5 ∧ inBuffer (refreshErrorPaletteBuffer phase w).bufErrorPalette c = isError := by
  rw [refreshErrorPaletteBuffer_palette]
  cases isError
  · refine ⟨0, by norm_num, ?_⟩
    split_ifs <;> rfl
  · split_ifs
    · exact ⟨3, by norm_num, rfl⟩
    · exact ⟨1, by norm_num, rfl⟩
    · exact ⟨2, by norm_num, rfl⟩

theorem refreshErrorPaletteBuffer_rnd (phase : Int) (w : World) :
    (refreshErrorPaletteBuffer phase w).rnd = w.rnd := by
  unfold refreshErrorPaletteBuffer
  split_ifs <;> rfl

/-- On a fair stream a colour draw returns, with the same result for every larger bound, and
the stream left is fair. -/
theorem colorDraw_returns (phase : Int) (isTarget : Bool) (w : World) (hfair : FairDraws w.rnd) :
    ∃ fuel0 res, FairDraws res.2.rnd ∧ ∀ fuel, fuel0 ≤ fuel →
      (if isTarget = true then getPhaseRandomColorValid fuel phase w
        else getPhaseRandomColorError fuel phase w) = some res := by
  have key : ∀ isError, ∃ fuel0 res, FairDraws res.2.rnd ∧ ∀ fuel, fuel0 ≤ fuel →
      (getRandomColorIndex fuel phase isError w).map (fun r => (paletteColor r.1, r.2)) =
        some res := by
    intro isError
    obtain ⟨c, hc, hcls⟩ := phase_class_inhabited phase isError w
    obtain ⟨k, hk⟩ := hfair 0 c hc
    have hk2 : inBuffer (refreshErrorPaletteBuffer phase w).bufErrorPalette
        ((refreshErrorPaletteBuffer phase w).rnd k % 5) = isError := by
      rw [refreshErrorPaletteBuffer_rnd]
      rw [Nat.zero_add] at hk
      rw [hk]
      exact hcls
    obtain ⟨res, hres⟩ := getRandomColorIndexLoop_returns isError k _ (k + 1) hk2 (by omega)
    obtain ⟨_, _, j, hj⟩ := getRandomColorIndexLoop_spec isError (k + 1) _ res.1 res.2 hres
    refine ⟨k + 1, (paletteColor (res.1 : Int), res.2), ?_, ?_⟩
    · show FairDraws res.2.rnd
      rw [hj]
      show FairDraws (fun n => (refreshErrorPaletteBuffer phase w).rnd (n + j))
      rw [refreshErrorPaletteBuffer_rnd]
      exact fairDraws_shift w.rnd j hfair
    · intro fuel hfuel
      have hmono := getRandomColorIndexLoop_mono isError (k + 1) _ res hres fuel hfuel
      simp [getRandomColorIndex, hmono]
  cases isTarget
  · obtain ⟨f, res, h1, h2⟩ := key true
    exact ⟨f, res, h1, fun fuel hf => by simpa [getPhaseRandomColorError] using h2 fuel hf⟩
  · obtain ⟨f, res, h1, h2⟩ := key false
    exact ⟨f, res, h1, fun fuel hf => by simpa [getPhaseRandomColorValid] using h2 fuel hf⟩

theorem updateButtonColorsLoop_returns (indices : List Int) (w : World)
    (hfair : FairDraws w.rnd) :
    ∃ fuel0, ∀ fuel, fuel0 ≤ fuel → ∃ w1, updateButtonColorsLoop fuel indices w = some w1 := by
  induction indices generalizing w with
  | nil => exact ⟨0, fun fuel _ => ⟨w, rfl⟩⟩
  | cons i rest ih =>
    obtain ⟨f1, res, hfair1, hdraw⟩ :=
      colorDraw_returns w.progState.currPhase (inTargetsBuffer w i) w hfair
    obtain ⟨f2, hrest⟩ := ih
      { res.2 with bufButtonColors :=
        CircularBuffer.push BUTTONS_NUM.toNat res.2.bufButtonColors res.1 } hfair1
    refine ⟨max f1 f2, ?_⟩
    intro fuel hfuel
    obtain ⟨w1, hw1⟩ := hrest fuel (le_trans (le_max_right f1 f2) hfuel)
    refine ⟨w1, ?_⟩
    rw [updateButtonColorsLoop, hdraw fuel (le_trans (le_max_left f1 f2) hfuel)]
    exact hw1

theorem randomizeTargetsLoop_fair (n : Nat) (w : World) (hfair : FairDraws w.rnd) :
    FairDraws (randomizeTargetsLoop n w).rnd := by
  induction n generalizing w with
  | zero => exact hfair
  | succ n ih =>
    have hpick : FairDraws (pickRandomTarget w).2.rnd := fairDraws_shift w.rnd 1 hfair
    rw [randomizeTargetsLoop]
    by_cases hstop : (pickRandomTarget w).1 = -1
    · simp only [hstop, if_true]
      exact hpick
    · simp only [hstop, if_false]
      apply ih
      obtain ⟨t, ht⟩ := pushTarget_frame (pickRandomTarget w).1 (pickRandomTarget w).2
      rw [ht]
      exact hpick

/-- On a fair stream `updateTargets` returns for every large enough bound. -/
theorem updateTargets_returns (now : Nat) (w : World) (hfair : FairDraws w.rnd) :
    ∃ fuel0, ∀ fuel, fuel0 ≤ fuel → ∃ w1, updateTargets fuel now w = some w1 := by
  have h1 : FairDraws (getPhaseNumTargets w.progState.currPhase w).2.rnd :=
    fairDraws_shift w.rnd 1 hfair
  have h2 : FairDraws (randomizeTargets (getPhaseNumTargets w.progState.currPhase w).1
      (getPhaseNumTargets w.progState.currPhase w).2).rnd :=
    randomizeTargetsLoop_fair _ _ h1
  obtain ⟨f, hf⟩ := updateButtonColorsLoop_returns buttonIndices
    { randomizeTargets (getPhaseNumTargets w.progState.currPhase w).1
        (getPhaseNumTargets w.progState.currPhase w).2 with bufButtonColors := [] } h2
  refine ⟨f, ?_⟩
  intro fuel hfuel
  obtain ⟨w3, hw3⟩ := hf fuel hfuel
  have hcol : updateButtonColorsBuffer fuel
      (randomizeTargets (getPhaseNumTargets w.progState.currPhase w).1
        (getPhaseNumTargets w.progState.currPhase w).2) = some w3 := hw3
  have hdef : updateTargets fuel now w =
      (updateButtonColorsBuffer fuel
        (randomizeTargets (getPhaseNumTargets w.progState.currPhase w).1
          (getPhaseNumTargets w.progState.currPhase w).2)).map
        (fun w3 => ({ showTargetLeds w3 with
          progState := { (showTargetLeds w3).progState with startMillis := now }
          bufButtonPresses := [] } : World)) := rfl
  rw [hdef, hcol]
  exact ⟨_, rfl⟩

theorem randomizeTargets_ok (num : Int) (w : World) :
    TargetsOk (randomizeTargets num w).bufButtonTargets :=
  (randomizeTargetsLoop_ok _ (clearTargets w) (by simp [clearTargets, TargetsOk])).1

theorem getPhaseNumTargets_value (phase : Int) (w : World) :
    (getPhaseNumTargets phase w).1 = 5 ∨ (getPhaseNumTargets phase w).1 = 6 := by
  simp only [getPhaseNumTargets, World.draw, BUTTONS_NUM, random]
  norm_num
  omega

/-! ## A matching round before the streak is complete -/

/-- Streak increment, for the rounds that the expiry test of the code lets through. For every
unlocked, unfinished world with `currPhase < FINAL_PHASE`, a round active and `isExpired`
returning `false`, in which the recorded presses and the targets are the same set of distinct
indices and `hitStreak + 1 < getPhaseHitStreak currPhase`: a tick that returns has incremented
`hitStreak` by exactly 1, left `currPhase` unchanged and `isLocked` false, and begun a fresh round
(press buffer empty, `startMillis` the current time, targets selected anew by `randomizeTargets`
for a count of 5 or 6); and the tick does return, for every large enough bound on the colour
draws, when the stream of random draws is fair. A round that is within its span but that
`isExpired` rejects, near the wrap of the clock, is restarted instead. -/
theorem matching_round_increments_streak (fuel now : Nat) (w : World)
    (hphase : w.progState.currPhase < FINAL_PHASE)
    (hlock : w.progState.isLocked = false) (hfin : w.progState.isFinished = false)
    (hround : w.progState.startMillis ≠ 0) (hexp : isExpired now w = false)
    (hT : w.bufButtonTargets.Nodup) (hP : w.bufButtonPresses.Nodup)
    (hsame : ∀ x, x ∈ w.bufButtonPresses ↔ x ∈ w.bufButtonTargets)
    (hstreak : w.progState.hitStreak + 1 < getPhaseHitStreak w.progState.currPhase) :
    (∀ w1, updateState fuel now w = some w1 →
      w1.progState.hitStreak = w.progState.hitStreak + 1 ∧
      w1.progState.currPhase = w.progState.currPhase ∧
      w1.progState.isLocked = false ∧ w1.progState.isFinished = false ∧
      w1.bufButtonPresses = [] ∧ w1.progState.startMillis = now ∧
      (∃ num w0, (num = 5 ∨ num = 6) ∧
        w1.bufButtonTargets = (randomizeTargets num w0).bufButtonTargets) ∧
      TargetsOk w1.bufButtonTargets) ∧
    (FairDraws w.rnd →
      ∃ fuel0, ∀ fuel1, fuel0 ≤ fuel1 → ∃ w1, updateState fuel1 now w = some w1) := by
  have hperm : w.bufButtonTargets.Perm w.bufButtonPresses :=
    (List.perm_ext_iff_of_nodup hT hP).mpr fun x => (hsame x).symm
  have hmatch : isPressesBufferMatch w = true :=
    (isPressesBufferMatch_eq_true_iff w).mpr ⟨hperm.length_eq, fun t ht => (hsame t).mpr ht⟩
  have herr : isPressesBufferError w = false := by
    cases he : isPressesBufferError w
    · rfl
    · obtain ⟨p, hp, hnot⟩ := (isPressesBufferErrorLoop_eq_true_iff w w.bufButtonPresses).mp he
      exact absurd ((hsame p).mp hp) hnot
  have htick : ∀ f, updateState f now w =
      updateTargets f now
        { w with progState := { w.progState with hitStreak := w.progState.hitStreak + 1 } } := by
    intro f
    rw [updateState_playing f now w hfin hphase hlock, ← advanceProgress_sameRound f now w hstreak]
    simp [hround, herr, hexp, hmatch]
  constructor
  · intro w1 h1
    rw [htick fuel] at h1
    obtain ⟨p, c, l, r, hw⟩ := updateTargets_spec fuel now _ w1 h1
    have htargets : w1.bufButtonTargets =
        (randomizeTargets
          (getPhaseNumTargets w.progState.currPhase
            { w with progState :=
              { w.progState with hitStreak := w.progState.hitStreak + 1 } }).1
          (getPhaseNumTargets w.progState.currPhase
            { w with progState :=
              { w.progState with hitStreak := w.progState.hitStreak + 1 } }).2).bufButtonTargets := by
      rw [hw]
    refine ⟨by rw [hw], by rw [hw], by rw [hw]; exact hlock, by rw [hw]; exact hfin,
      by rw [hw], by rw [hw], ⟨_, _, getPhaseNumTargets_value _ _, htargets⟩, ?_⟩
    rw [htargets]
    exact randomizeTargets_ok _ _
  · intro hfair
    obtain ⟨f0, hf0⟩ := updateTargets_returns now
      { w with progState := { w.progState with hitStreak := w.progState.hitStreak + 1 } } hfair
    refine ⟨f0, fun f1 hle => ?_⟩
    rw [htick f1]
    exact hf0 f1 hle

/-- Scenario A, away from the wrap of the clock. With the draws 0, 1, 2, ... the tick returns;
the streak is 1, the phase still 0, and the new targets are 1, 2, 3, 4, 5. -/
theorem matching_round_increments_streak_witness :
    updateState 5 2000 scenarioA = some scenarioANext ∧
    scenarioANext.progState.hitStreak = 1 ∧ scenarioANext.progState.currPhase = 0 ∧
    scenarioANext.bufButtonTargets = [1, 2, 3, 4, 5] ∧
    (scenarioANext.progState.hitStreak = scenarioA.progState.hitStreak + 1 ∧
      scenarioANext.progState.currPhase = scenarioA.progState.currPhase ∧
      scenarioANext.progState.isLocked = false ∧ scenarioANext.progState.isFinished = false ∧
      scenarioANext.bufButtonPresses = [] ∧ scenarioANext.progState.startMillis = 2000 ∧
      (∃ num w0, (num = 5 ∨ num = 6) ∧
        scenarioANext.bufButtonTargets = (randomizeTargets num w0).bufButtonTargets) ∧
      TargetsOk scenarioANext.bufButtonTargets) :=
  ⟨rfl, by decide, by decide, by decide,
    (matching_round_increments_streak 5 2000 scenarioA (by decide) rfl rfl (by decide)
      (by decide) (by decide) (by decide)
      (fun x => by simp only [scenarioA, roundWorld, List.mem_cons, List.mem_singleton]; tauto)
      (by decide)).1 scenarioANext rfl⟩

/-! ## Reachability of the finished world -/

theorem runEvents_reachable (fuel : Nat) (events : List Event) (w w1 : World)
    (hreach : Reachable w) (hrun : runEvents fuel events w = some w1) : Reachable w1 := by
  induction events generalizing w with
  | nil =>
    simp only [runEvents, Option.some.injEq] at hrun
    rw [← hrun]
    exact hreach
  | cons ev rest ih =>
    rw [runEvents] at hrun
    cases hstep : step fuel ev w with
    | none => simp [hstep] at hrun
    | some w2 =>
      simp only [hstep, Option.some_bind] at hrun
      exact ih w2 (Reachable.next fuel ev w w2 hreach hstep) hrun

theorem playRound_reachable (fuel now : Nat) (w w1 : World)
    (hreach : Reachable w) (hplay : playRound fuel now w = some w1) : Reachable w1 := by
  unfold playRound at hplay
  cases hfirst : (if w.progState.isLocked = true then onPhasePress fuel now w else some w) with
  | none => simp [hfirst] at hplay
  | some w2 =>
    simp only [hfirst, Option.some_bind] at hplay
    have hreach2 : Reachable w2 := by
      split_ifs at hfirst with hl
      · exact Reachable.next fuel (Event.phasePress now) w w2 hreach hfirst
      · rw [← Option.some.inj hfirst]
        exact hreach
    exact runEvents_reachable fuel _ w2 w1 hreach2 hplay

theorem playRounds_reachable (fuel now n : Nat) (w w1 : World)
    (hreach : Reachable w) (hplay : playRounds fuel now n w = some w1) : Reachable w1 := by
  induction n generalizing w with
  | zero =>
    simp only [playRounds, Option.some.injEq] at hplay
    rw [← hplay]
    exact hreach
  | succ n ih =>
    rw [playRounds] at hplay
    cases hround : playRound fuel now w with
    | none => simp [hround] at hplay
    | some w2 =>
      simp only [hround, Option.some_bind] at hplay
      exact ih w2 (playRound_reachable fuel now w w2 hreach hround) hplay

theorem eq_some_getD_of_isSome {α : Type} (o : Option α) (d : α) (h : o.isSome = true) :
    o = some (o.getD d) := by
  cases o with
  | none => simp at h
  | some a => rfl

set_option maxRecDepth 100000 in
theorem wonWorld_played : playRounds 5 1000 13 (setup scenarioD) = some wonWorld :=
  eq_some_getD_of_isSome _ _ (by decide)

set_option maxRecDepth 100000 in
theorem wonWorld_phase :
    wonWorld.progState.currPhase = 3 ∧ wonWorld.progState.isFinished = false ∧
      wonWorld.progState.isLocked = true ∧ wonWorld.relay = false := by
  decide

theorem finishedWorld_reachable : Reachable finishedWorld :=
  Reachable.next 5 (Event.tick 1000) wonWorld finishedWorld
    (playRounds_reachable 5 1000 13 (setup scenarioD) wonWorld (Reachable.boot scenarioD)
      wonWorld_played)
    (updateState_finishing 5 1000 wonWorld wonWorld_phase.2.1
      (by rw [wonWorld_phase.1]; decide))

/-- Witness of C7: the world reached by boot, thirteen rounds without a fault and one more tick
is finished, and its relay is open; the world right after boot is not finished, and its relay
is closed. -/
theorem relay_open_iff_finished_witness :
    (Reachable finishedWorld ∧ finishedWorld.progState.isFinished = true ∧
      finishedWorld.relay = true) ∧
    (Reachable (setup scenarioD) ∧ (setup scenarioD).progState.currPhase = 0 ∧
      (setup scenarioD).relay = false) :=
  ⟨⟨finishedWorld_reachable, rfl,
      (relay_open_iff_finished finishedWorld finishedWorld_reachable).2.1.mpr rfl⟩,
    ⟨Reachable.boot scenarioD, rfl,
      (relay_open_iff_finished (setup scenarioD) (Reachable.boot scenarioD)).2.2.2
        (by decide)⟩⟩

/-! ## The round clock -/

/-- The three cases of `isExpired`, as the source computes them. -/
theorem isExpired_eq (now : Nat) (w : World) :
    isExpired now w =
      if w.progState.startMillis = 0 then false
      else if now < w.progState.startMillis then true
      else decide (now >
        (w.progState.startMillis + getPhaseMaxSpanMillis w.progState.currPhase) % ULONG_MOD) :=
  rfl

/-- Where the sum `startMillis + maxSpan` stays below `2 ^ 32`, `isExpired` is the comparison of
the elapsed time with the span of the phase. -/
theorem isExpired_of_no_wrap (now : Nat) (w : World)
    (hround : w.progState.startMillis ≠ 0) (hnow : w.progState.startMillis ≤ now)
    (hsum : w.progState.startMillis + getPhaseMaxSpanMillis w.progState.currPhase < ULONG_MOD) :
    (isExpired now w = true ↔
      now - w.progState.startMillis > getPhaseMaxSpanMillis w.progState.currPhase) := by
  rw [isExpired_eq, Nat.mod_eq_of_lt hsum]
  have hnot : ¬ now < w.progState.startMillis := not_lt.mpr hnow
  simp only [hround, hnot, if_false, decide_eq_true_eq]
  omega

/-- C11 (expiry), at the failing input. A round of phase 0 started 1000 ms before the 32-bit
clock wraps (`startMillis = 2 ^ 32 - 1000`) and read 1 ms later: both readings are 32-bit values,
`startMillis` is set, `now ≥ startMillis`, the elapsed time is 1 ms and does not exceed the
10000 ms of the phase, and `isExpired` returns `true`, because the sum `startMillis + maxSpan`
wraps to 9000. -/
theorem isExpired_true_before_span_near_wrap :
    (roundWorld 0 0 4294966296 [1, 3, 5] []).progState.startMillis = 2 ^ 32 - 1000 ∧
    4294966297 < ULONG_MOD ∧
    4294966297 - (roundWorld 0 0 4294966296 [1, 3, 5] []).progState.startMillis = 1 ∧
    getPhaseMaxSpanMillis (roundWorld 0 0 4294966296 [1, 3, 5] []).progState.currPhase = 10000 ∧
    ((roundWorld 0 0 4294966296 [1, 3, 5] []).progState.startMillis +
      getPhaseMaxSpanMillis (roundWorld 0 0 4294966296 [1, 3, 5] []).progState.currPhase)
        % ULONG_MOD = 9000 ∧
    isExpired 4294966297 (roundWorld 0 0 4294966296 [1, 3, 5] []) = true := by
  decide

/-! ## The finished engine -/

theorem runEvents_isFinished (fuel : Nat) (events : List Event) (w w1 : World)
    (hfin : w.progState.isFinished = true) (hrun : runEvents fuel events w = some w1) :
    w1.progState.isFinished = true := by
  induction events generalizing w with
  | nil =>
    simp only [runEvents, Option.some.injEq] at hrun
    rw [← hrun]
    exact hfin
  | cons ev rest ih =>
    rw [runEvents] at hrun
    cases hstep : step fuel ev w with
    | none => simp [hstep] at hrun
    | some w2 =>
      simp only [hstep, Option.some_bind] at hrun
      have hfin2 : w2.progState.isFinished = true := by
        rcases (step_relay_isFinished fuel ev w w2 hstep).2 with ⟨_, hsame⟩ | ⟨_, _, htrue⟩
        · rw [hsame]
          exact hfin
        · exact htrue
      exact ih w2 hfin2 hrun

/-- C12 (finished is terminal). For every world with `isFinished = true`: a tick returns the
world as it is, no field of `ProgramState`, no buffer and no output changed; and after every
event whose handler returns (tick, button press, unlock press), and after every sequence of
such events, `isFinished` is still true. -/
theorem finished_stays_finished (fuel now : Nat) (w : World)
    (hfin : w.progState.isFinished = true) :
    updateState fuel now w = some w ∧
    (∀ ev w1, step fuel ev w = some w1 → w1.progState.isFinished = true) ∧
    (∀ events w1, runEvents fuel events w = some w1 → w1.progState.isFinished = true) := by
  refine ⟨updateState_finished fuel now w hfin, ?_, ?_⟩
  · intro ev w1 hstep
    rcases (step_relay_isFinished fuel ev w w1 hstep).2 with ⟨_, hsame⟩ | ⟨_, _, htrue⟩
    · rw [hsame]
      exact hfin
    · exact htrue
  · intro events w1 hrun
    exact runEvents_isFinished fuel events w w1 hfin hrun

/-- Witness of C12: the finished world reached by thirteen rounds without a fault. -/
theorem finished_stays_finished_witness :
    finishedWorld.progState.isFinished = true ∧
    updateState 5 3000 finishedWorld = some finishedWorld ∧
    (onPress 2 finishedWorld).progState.isFinished = true :=
  ⟨rfl, (finished_stays_finished 5 3000 finishedWorld rfl).1,
    (finished_stays_finished 5 3000 finishedWorld rfl).2.1 (Event.press 2)
      (onPress 2 finishedWorld) rfl⟩

/-! ## Duplicate presses -/

theorem mem_push_self {α : Type} (cap : Nat) (buf : List α) (value : α) :
    value ∈ CircularBuffer.push cap buf value := by
  unfold CircularBuffer.push
  split_ifs <;> simp

/-- C14 (idempotent press). For every world and every button index `idx`, `onPress idx` twice in
a row gives exactly the world that `onPress idx` once gives; and a single `onPress` changes
nothing but the press buffer, which it leaves alone when the engine is locked or `idx` is
recorded already. -/
theorem onPress_idempotent (idx : Int) (w : World) :
    onPress idx (onPress idx w) = onPress idx w ∧
    onPress idx w = { w with bufButtonPresses := (onPress idx w).bufButtonPresses } ∧
    (onPress idx w).progState = w.progState ∧
    (onPress idx w).bufButtonPresses =
      if w.progState.isLocked = true ∨ idx ∈ w.bufButtonPresses then w.bufButtonPresses
      else CircularBuffer.push BUTTONS_BUF_SIZE w.bufButtonPresses idx := by
  cases hlock : w.progState.isLocked with
  | true =>
    have h1 : onPress idx w = w := onPress_of_locked idx w hlock
    rw [h1, h1]
    exact ⟨rfl, rfl, rfl, by simp [hlock]⟩
  | false =>
    by_cases hdup : idx ∈ w.bufButtonPresses
    · have hin : inBuffer w.bufButtonPresses idx = true := (inBuffer_eq_true_iff _ _).mpr hdup
      have h1 : onPress idx w = w := by simp [onPress, hlock, hin]
      rw [h1, h1]
      exact ⟨rfl, rfl, rfl, by simp [hdup]⟩
    · have hin : inBuffer w.bufButtonPresses idx = false := (inBuffer_eq_false_iff _ _).mpr hdup
      have h1 : onPress idx w =
          { w with bufButtonPresses :=
            CircularBuffer.push BUTTONS_BUF_SIZE w.bufButtonPresses idx } := by
        simp [onPress, hlock, hin]
      have hin2 : inBuffer (CircularBuffer.push BUTTONS_BUF_SIZE w.bufButtonPresses idx) idx
          = true := (inBuffer_eq_true_iff _ _).mpr (mem_push_self _ _ _)
      refine ⟨?_, ?_, ?_, ?_⟩
      · rw [h1]
        simp [onPress, hlock, hin2]
      · rw [h1]
      · rw [h1]
      · rw [h1]
        simp [hlock, hdup]

set_option maxRecDepth 100000 in
theorem wonWorld_streak : wonWorld.progState.hitStreak = 0 := by
  decide
/-! ## Phase and streak counters -/

/-- What a handler does to the two counters: the phase stays and the streak stays, is reset, or
grows by one below the required count; or the phase grows by one, from below `FINAL_PHASE`, and
the streak is reset. -/
theorem step_counters (fuel : Nat) (ev : Event) (w w1 : World)
    (h : step fuel ev w = some w1) :
    (w1.progState.currPhase = w.progState.currPhase ∧
      (w1.progState.hitStreak = w.progState.hitStreak ∨ w1.progState.hitStreak = 0 ∨
        (w1.progState.hitStreak = w.progState.hitStreak + 1 ∧
          w.progState.hitStreak + 1 < getPhaseHitStreak w.progState.currPhase))) ∨
    (w1.progState.currPhase = w.progState.currPhase + 1 ∧
      w.progState.currPhase < FINAL_PHASE ∧ w1.progState.hitStreak = 0) := by
  cases ev with
  | tick now =>
    simp only [step] at h
    cases hfin : w.progState.isFinished with
    | true =>
      rw [updateState_finished fuel now w hfin] at h
      rw [← Option.some.inj h]
      exact Or.inl ⟨rfl, Or.inl rfl⟩
    | false =>
      by_cases hphase : w.progState.currPhase ≥ FINAL_PHASE
      · rw [updateState_finishing fuel now w hfin hphase] at h
        obtain ⟨l, r, hf⟩ := onFinish_frame w
        rw [← Option.some.inj h, hf]
        exact Or.inl ⟨rfl, Or.inl rfl⟩
      · have hlt : w.progState.currPhase < FINAL_PHASE := not_le.mp hphase
        cases hlock : w.progState.isLocked with
        | true =>
          rw [updateState_locked fuel now w hfin hlt hlock] at h
          rw [← Option.some.inj h]
          exact Or.inl ⟨rfl, Or.inl rfl⟩
        | false =>
          rw [updateState_playing fuel now w hfin hlt hlock] at h
          split_ifs at h with h0 herr hexp hmatch
          · obtain ⟨p, c, l, r, hw⟩ := updateTargets_spec fuel now w w1 h
            rw [hw]
            exact Or.inl ⟨rfl, Or.inl rfl⟩
          · obtain ⟨l, he⟩ := errorAndRestart_frame w
            rw [← Option.some.inj h, he]
            exact Or.inl ⟨rfl, Or.inr (Or.inl rfl)⟩
          · obtain ⟨l, he⟩ := errorAndRestart_frame w
            rw [← Option.some.inj h, he]
            exact Or.inl ⟨rfl, Or.inr (Or.inl rfl)⟩
          · by_cases hstreak :
                w.progState.hitStreak + 1 ≥ getPhaseHitStreak w.progState.currPhase
            · obtain ⟨l, r, ha⟩ := advanceProgress_newPhase fuel now w hstreak
              rw [ha] at h
              rw [← Option.some.inj h]
              exact Or.inr ⟨rfl, hlt, rfl⟩
            · rw [advanceProgress_sameRound fuel now w (not_le.mp hstreak)] at h
              obtain ⟨p, c, l, r, hw⟩ := updateTargets_spec fuel now _ w1 h
              rw [hw]
              exact Or.inl ⟨rfl, Or.inr (Or.inr ⟨rfl, not_le.mp hstreak⟩)⟩
          · obtain ⟨l, hs⟩ := showTargetLeds_frame w
            rw [← Option.some.inj h, hs]
            exact Or.inl ⟨rfl, Or.inl rfl⟩
  | press idx =>
    simp only [step, Option.some.injEq] at h
    obtain ⟨p, hp⟩ := onPress_frame idx w
    rw [← h, hp]
    exact Or.inl ⟨rfl, Or.inl rfl⟩
  | phasePress now =>
    simp only [step, onPhasePress] at h
    split_ifs at h with hl
    · rw [← Option.some.inj h]
      exact Or.inl ⟨rfl, Or.inl rfl⟩
    · obtain ⟨p, c, l, r, hw⟩ := updateTargets_spec fuel now _ w1 h
      rw [hw]
      exact Or.inl ⟨rfl, Or.inl rfl⟩

theorem getPhaseHitStreak_pos (phase : Int) : 3 ≤ getPhaseHitStreak phase := by
  unfold getPhaseHitStreak
  split_ifs <;> norm_num

theorem finishing_progState (w : World) :
    ({ onFinish w with
        progState := { (onFinish w).progState with isFinished := true } } : World).progState =
      { w.progState with isFinished := true } := by
  obtain ⟨l, r, hf⟩ := onFinish_frame w
  rw [hf]

theorem finishedWorld_progState :
    finishedWorld.progState = { wonWorld.progState with isFinished := true } := by
  unfold finishedWorld
  exact finishing_progState wonWorld

theorem finishedWorld_phase : finishedWorld.progState.currPhase = 3 := by
  rw [finishedWorld_progState]
  dsimp only
  exact wonWorld_phase.1

theorem finishedWorld_streak : finishedWorld.progState.hitStreak = 0 := by
  rw [finishedWorld_progState]
  dsimp only
  exact wonWorld_streak

/-- C16 (phase range). In every world reachable from boot under any sequence of ticks, button
presses and unlock presses, `0 ≤ currPhase ≤ FINAL_PHASE = 3`: the phase counter is never
incremented past `FINAL_PHASE`. -/
theorem reachable_currPhase_range (w : World) (hreach : Reachable w) :
    FINAL_PHASE = 3 ∧ 0 ≤ w.progState.currPhase ∧ w.progState.currPhase ≤ FINAL_PHASE := by
  refine ⟨rfl, ?_⟩
  induction hreach with
  | boot w0 =>
    constructor
    · exact le_refl _
    · show (0 : Int) ≤ FINAL_PHASE
      decide
  | next fuel ev w w1 _ hstep ih =>
    rcases step_counters fuel ev w w1 hstep with ⟨hsame, _⟩ | ⟨hnext, hlt, _⟩
    · rw [hsame]
      exact ih
    · rw [hnext]
      constructor
      · omega
      · omega

/-- Witness of C16: the finished world is reachable, and its phase is 3. -/
theorem reachable_currPhase_range_witness :
    Reachable finishedWorld ∧ finishedWorld.progState.currPhase = 3 ∧
    0 ≤ finishedWorld.progState.currPhase ∧ finishedWorld.progState.currPhase ≤ FINAL_PHASE :=
  ⟨finishedWorld_reachable, finishedWorld_phase,
    (reachable_currPhase_range finishedWorld finishedWorld_reachable).2⟩

/-- C20 (streak range). In every world reachable from boot under any sequence of ticks, button
presses and unlock presses, `0 ≤ hitStreak < getPhaseHitStreak currPhase`: the stored streak is
strictly below the required count of the current phase. -/
theorem reachable_hitStreak_range (w : World) (hreach : Reachable w) :
    0 ≤ w.progState.hitStreak ∧
    w.progState.hitStreak < getPhaseHitStreak w.progState.currPhase := by
  induction hreach with
  | boot w0 =>
    constructor
    · exact le_refl _
    · show (0 : Int) < getPhaseHitStreak 0
      decide
  | next fuel ev w w1 _ hstep ih =>
    rcases step_counters fuel ev w w1 hstep with
      ⟨hsame, hkeep | hzero | ⟨hinc, hbelow⟩⟩ | ⟨hnext, _, hzero⟩
    · rw [hsame, hkeep]
      exact ih
    · rw [hsame, hzero]
      exact ⟨le_refl _, lt_of_lt_of_le (by norm_num) (getPhaseHitStreak_pos _)⟩
    · rw [hsame, hinc]
      exact ⟨by omega, hbelow⟩
    · rw [hzero]
      exact ⟨le_refl _, lt_of_lt_of_le (by norm_num) (getPhaseHitStreak_pos _)⟩

/-- Witness of C20: the finished world is reachable, with streak 0 below the 3 that phase 3
asks for; so is the world right after boot, with streak 0 below the 6 of phase 0. -/
theorem reachable_hitStreak_range_witness :
    (Reachable finishedWorld ∧ finishedWorld.progState.hitStreak = 0 ∧
      getPhaseHitStreak finishedWorld.progState.currPhase = 3 ∧
      0 ≤ finishedWorld.progState.hitStreak ∧
      finishedWorld.progState.hitStreak < getPhaseHitStreak finishedWorld.progState.currPhase) ∧
    (Reachable (setup scenarioD) ∧
      getPhaseHitStreak (setup scenarioD).progState.currPhase = 6 ∧
      0 ≤ (setup scenarioD).progState.hitStreak ∧
      (setup scenarioD).progState.hitStreak <
        getPhaseHitStreak (setup scenarioD).progState.currPhase) :=
  ⟨⟨finishedWorld_reachable, finishedWorld_streak, by rw [finishedWorld_phase]; rfl,
      reachable_hitStreak_range finishedWorld finishedWorld_reachable⟩,
    ⟨Reachable.boot scenarioD, rfl,
      reachable_hitStreak_range (setup scenarioD) (Reachable.boot scenarioD)⟩⟩

/-! ## Target selection never aborts -/

/-- A target buffer of fewer than eight distinct buttons misses a button. -/
theorem exists_free_button (buf : List Int) (hlen : buf.length < 8) :
    ∃ x : Int, 0 ≤ x ∧ x < 8 ∧ x ∉ buf := by
  by_contra hnone
  have hall : buttonIndices ⊆ buf := by
    intro x hx
    by_contra hx2
    apply hnone
    simp only [buttonIndices, List.mem_cons, List.mem_singleton, List.not_mem_nil,
      or_false] at hx
    exact ⟨x, by omega, by omega, hx2⟩
  have hnodup : buttonIndices.Nodup := by decide
  have hle : buttonIndices.length ≤ buf.length := (List.subperm_of_subset hnodup hall).length_le
  have h8 : buttonIndices.length = 8 := rfl
  omega

/-- The `while` loop of `pickRandomTarget` stops at the first free index at or cyclically after
the pivot, when one lies within the probes the guard allows. -/
theorem pickRandomTargetLoop_first_free (w : World) (k : Nat) (fuel : Nat)
    (counter randPivot : Int) (hp0 : 0 ≤ randPivot) (hp8 : randPivot < 8)
    (hfree : (randPivot + k) % 8 ∉ w.bufButtonTargets)
    (hmin : ∀ j : Nat, j < k → (randPivot + j) % 8 ∈ w.bufButtonTargets)
    (hfuel : k < fuel) (hcount : counter + k ≤ 9) :
    pickRandomTargetLoop w fuel counter randPivot = (randPivot + k) % 8 := by
  induction k generalizing fuel counter randPivot with
  | zero =>
    obtain ⟨f, rfl⟩ : ∃ f, fuel = f + 1 := ⟨fuel - 1, by omega⟩
    have hself : (randPivot + (0 : Nat)) % 8 = randPivot := by omega
    rw [hself] at hfree
    have hin : inTargetsBuffer w randPivot = false := (inBuffer_eq_false_iff _ _).mpr hfree
    rw [pickRandomTargetLoop, hself]
    simp [hin]
  | succ k ih =>
    obtain ⟨f, rfl⟩ : ∃ f, fuel = f + 1 := ⟨fuel - 1, by omega⟩
    have hfirst : randPivot ∈ w.bufButtonTargets := by
      have h := hmin 0 (by omega)
      have hself : (randPivot + (0 : Nat)) % 8 = randPivot := by omega
      rw [hself] at h
      exact h
    have hin : inTargetsBuffer w randPivot = true := (inBuffer_eq_true_iff _ _).mpr hfirst
    have hguard : counter ≤ BUTTONS_NUM := by
      simp only [BUTTONS_NUM]
      push_cast at hcount
      omega
    have hnext : ((randPivot + 1) % BUTTONS_NUM + (k : Int)) % 8 =
        (randPivot + ((k + 1 : Nat) : Int)) % 8 := by
      simp only [BUTTONS_NUM]
      push_cast
      omega
    rw [pickRandomTargetLoop]
    simp only [hin, hguard, decide_True, Bool.and_self, if_true]
    rw [ih f (counter + 1) ((randPivot + 1) % BUTTONS_NUM)
      (by simp only [BUTTONS_NUM]; omega) (by simp only [BUTTONS_NUM]; omega)
      (by rw [hnext]; exact hfree)
      (by
        intro j hj
        have h := hmin (j + 1) (by omega)
        have he : ((randPivot + 1) % BUTTONS_NUM + (j : Int)) % 8 =
            (randPivot + ((j + 1 : Nat) : Int)) % 8 := by
          simp only [BUTTONS_NUM]
          push_cast
          omega
        rw [he]
        exact h)
      (by omega) (by push_cast at hcount ⊢; omega)]
    exact hnext

/-- The pivot that `pickRandomTarget` draws in the world `w`. -/
theorem pickRandomTarget_pivot_range (w : World) :
    0 ≤ random (w.rnd 0) 0 (BUTTONS_NUM * 10) % BUTTONS_NUM ∧
      random (w.rnd 0) 0 (BUTTONS_NUM * 10) % BUTTONS_NUM < 8 := by
  simp only [BUTTONS_NUM]
  omega

/-- When some button is free, `pickRandomTarget` returns the first free index at or cyclically
after its pivot. -/
theorem pickRandomTarget_of_free (w : World) (x : Int) (hx0 : 0 ≤ x) (hx8 : x < 8)
    (hx : x ∉ w.bufButtonTargets) :
    ∃ k : Nat, k < 8 ∧
      (pickRandomTarget w).1 = (random (w.rnd 0) 0 (BUTTONS_NUM * 10) % BUTTONS_NUM + k) % 8 ∧
      (pickRandomTarget w).1 ∉ w.bufButtonTargets ∧
      ∀ j : Nat, j < k →
        (random (w.rnd 0) 0 (BUTTONS_NUM * 10) % BUTTONS_NUM + j) % 8 ∈ w.bufButtonTargets := by
  obtain ⟨hp0, hp8⟩ := pickRandomTarget_pivot_range w
  generalize hpiv : random (w.rnd 0) 0 (BUTTONS_NUM * 10) % BUTTONS_NUM = pivot at hp0 hp8
  have hex : ∃ k : Nat, (pivot + k) % 8 ∉ w.bufButtonTargets := by
    refine ⟨((x - pivot) % 8).toNat, ?_⟩
    have he : (pivot + (((x - pivot) % 8).toNat : Int)) % 8 = x := by omega
    rw [he]
    exact hx
  have hk7 : Nat.find hex < 8 := by
    have hle : Nat.find hex ≤ ((x - pivot) % 8).toNat := by
      apply Nat.find_min'
      have he : (pivot + (((x - pivot) % 8).toNat : Int)) % 8 = x := by omega
      rw [he]
      exact hx
    omega
  have hmin : ∀ j : Nat, j < Nat.find hex → (pivot + j) % 8 ∈ w.bufButtonTargets := by
    intro j hj
    by_contra hnot
    exact Nat.find_min hex hj hnot
  have hloop : pickRandomTargetLoop { w with rnd := fun n => w.rnd (n + 1) } 10 0 pivot =
      (pivot + (Nat.find hex : Nat)) % 8 :=
    pickRandomTargetLoop_first_free { w with rnd := fun n => w.rnd (n + 1) } (Nat.find hex) 10 0
      pivot hp0 hp8 (Nat.find_spec hex) hmin (by omega) (by omega)
  have hin : inTargetsBuffer { w with rnd := fun n => w.rnd (n + 1) }
      ((pivot + (Nat.find hex : Nat)) % 8) = false :=
    (inBuffer_eq_false_iff _ _).mpr (Nat.find_spec hex)
  have hres : (pickRandomTarget w).1 = (pivot + (Nat.find hex : Nat)) % 8 := by
    simp only [pickRandomTarget, World.draw, hpiv, hloop, hin, Bool.false_eq_true, if_false]
  refine ⟨Nat.find hex, hk7, hres, ?_, hmin⟩
  rw [hres]
  exact Nat.find_spec hex

theorem pushTarget_appends (idx : Int) (w : World) (h0 : 0 ≤ idx) (h8 : idx < 8)
    (hnew : idx ∉ w.bufButtonTargets) (hlen : w.bufButtonTargets.length < 8) :
    (pushTarget idx w).2.bufButtonTargets = w.bufButtonTargets ++ [idx] := by
  have hrange : ¬ (idx < 0 ∨ idx ≥ BUTTONS_NUM) := by
    simp only [BUTTONS_NUM]
    omega
  have hin : inTargetsBuffer w idx = false := (inBuffer_eq_false_iff _ _).mpr hnew
  have hfull : CircularBuffer.isFull BUTTONS_NUM.toNat w.bufButtonTargets = false := by
    have h8 : BUTTONS_NUM.toNat = 8 := rfl
    simp only [CircularBuffer.isFull, h8, decide_eq_false_iff_not]
    omega
  simp [pushTarget, hrange, hin, hfull, push_of_not_full]

/-- While there is room for them, every iteration of the loop of `randomizeTargets` adds a
target. -/
theorem randomizeTargetsLoop_length (n : Nat) (w : World) (hok : TargetsOk w.bufButtonTargets)
    (hroom : w.bufButtonTargets.length + n ≤ 8) :
    (randomizeTargetsLoop n w).bufButtonTargets.length = w.bufButtonTargets.length + n := by
  induction n generalizing w with
  | zero => rfl
  | succ n ih =>
    obtain ⟨x, hx0, hx8, hx⟩ := exists_free_button w.bufButtonTargets (by omega)
    obtain ⟨k, _, hres, hnew, _⟩ := pickRandomTarget_of_free w x hx0 hx8 hx
    have hr0 : 0 ≤ (pickRandomTarget w).1 := by rw [hres]; omega
    have hr8 : (pickRandomTarget w).1 < 8 := by rw [hres]; omega
    have hstop : ¬ (pickRandomTarget w).1 = -1 := by omega
    have hsame := pickRandomTarget_targets w
    have hpick : TargetsOk (pickRandomTarget w).2.bufButtonTargets := by rw [hsame]; exact hok
    have hpush := pushTarget_appends (pickRandomTarget w).1 (pickRandomTarget w).2 hr0 hr8
      (by rw [hsame]; exact hnew) (by rw [hsame]; omega)
    have hok2 := (pushTarget_ok (pickRandomTarget w).1 (pickRandomTarget w).2 hpick).1
    rw [randomizeTargetsLoop]
    simp only [hstop, if_false]
    rw [ih _ hok2 (by rw [hpush, hsame]; simp; omega), hpush, hsame]
    simp
    omega

theorem randomizeTargets_length (num : Int) (w : World) (hnum : 0 ≤ num) :
    ((randomizeTargets num w).bufButtonTargets.length : Int) = min num 8 := by
  have hclear : TargetsOk (clearTargets w).bufButtonTargets := by
    simp [clearTargets, TargetsOk]
  have hlen0 : (clearTargets w).bufButtonTargets.length = 0 := rfl
  unfold randomizeTargets
  simp only [BUTTONS_NUM]
  by_cases hbig : num > 8
  · have h8 : (8 : Int).toNat = 8 := rfl
    simp only [hbig, if_true, h8]
    rw [randomizeTargetsLoop_length 8 _ hclear (by omega), hlen0, min_eq_right (by omega)]
    rfl
  · simp only [hbig, if_false]
    rw [randomizeTargetsLoop_length num.toNat _ hclear (by omega), hlen0,
      min_eq_left (by omega)]
    omega

/-- C19 (no early abort). For every target buffer holding fewer than 8 entries (in particular,
fewer than 8 distinct indices of `[0, 8)`) and every random pivot, `pickRandomTarget` returns an
index of `[0, 8)` that is not in the buffer, the first such index at or cyclically after the
pivot; it returns `-1` only when all 8 indices are in the buffer; and for every `num ≥ 0`,
`randomizeTargets num` leaves exactly `min num 8` targets. -/
theorem pickRandomTarget_never_aborts (w : World) (hlen : w.bufButtonTargets.length < 8) :
    (0 ≤ (pickRandomTarget w).1 ∧ (pickRandomTarget w).1 < 8 ∧
      (pickRandomTarget w).1 ∉ w.bufButtonTargets ∧
      ∃ k : Nat, k < 8 ∧
        (pickRandomTarget w).1 =
          (random (w.rnd 0) 0 (BUTTONS_NUM * 10) % BUTTONS_NUM + k) % 8 ∧
        ∀ j : Nat, j < k →
          (random (w.rnd 0) 0 (BUTTONS_NUM * 10) % BUTTONS_NUM + j) % 8 ∈
            w.bufButtonTargets) ∧
    (∀ v : World, (pickRandomTarget v).1 = -1 →
      ∀ x : Int, 0 ≤ x → x < 8 → x ∈ v.bufButtonTargets) ∧
    (∀ (num : Int) (v : World), 0 ≤ num →
      ((randomizeTargets num v).bufButtonTargets.length : Int) = min num 8) := by
  refine ⟨?_, ?_, fun num v hnum => randomizeTargets_length num v hnum⟩
  · obtain ⟨x, hx0, hx8, hx⟩ := exists_free_button w.bufButtonTargets hlen
    obtain ⟨k, hk, hres, hnew, hmin⟩ := pickRandomTarget_of_free w x hx0 hx8 hx
    exact ⟨by rw [hres]; omega, by rw [hres]; omega, hnew, k, hk, hres, hmin⟩
  · intro v hminus x hx0 hx8
    by_contra hx
    obtain ⟨k, _, hres, _, _⟩ := pickRandomTarget_of_free v x hx0 hx8 hx
    rw [hres] at hminus
    omega

/-- Witness of C19: the targets 1, 3, 5 and the pivot 1, which is taken: the index returned is
2, the first free one after the pivot. -/
theorem pickRandomTarget_never_aborts_witness :
    scenarioA.draw.2.bufButtonTargets = [1, 3, 5] ∧ TargetsOk scenarioA.draw.2.bufButtonTargets ∧
    random (scenarioA.draw.2.rnd 0) 0 (BUTTONS_NUM * 10) % BUTTONS_NUM = 1 ∧
    (pickRandomTarget scenarioA.draw.2).1 = 2 ∧
    (0 ≤ (pickRandomTarget scenarioA.draw.2).1 ∧ (pickRandomTarget scenarioA.draw.2).1 < 8 ∧
      (pickRandomTarget scenarioA.draw.2).1 ∉ scenarioA.draw.2.bufButtonTargets ∧
      ∃ k : Nat, k < 8 ∧
        (pickRandomTarget scenarioA.draw.2).1 =
          (random (scenarioA.draw.2.rnd 0) 0 (BUTTONS_NUM * 10) % BUTTONS_NUM + k) % 8 ∧
        ∀ j : Nat, j < k →
          (random (scenarioA.draw.2.rnd 0) 0 (BUTTONS_NUM * 10) % BUTTONS_NUM + j) % 8 ∈
            scenarioA.draw.2.bufButtonTargets) :=
  ⟨rfl, ⟨by decide, by decide⟩, by decide, by decide,
    (pickRandomTarget_never_aborts scenarioA.draw.2 (by decide)).1⟩

/-! ## Colour assignment -/

theorem colorDraw_class (fuel : Nat) (phase : Int) (isTarget : Bool) (w : World)
    (res : Nat × World)
    (h : (if isTarget = true then getPhaseRandomColorValid fuel phase w
      else getPhaseRandomColorError fuel phase w) = some res) :
    ∃ idx : Int, 0 ≤ idx ∧ idx < 5 ∧ res.1 = paletteColor idx ∧
      (idx ∈ phaseErrorSet phase ↔ isTarget = false) := by
  have key : ∀ isError, (getRandomColorIndex fuel phase isError w).map
      (fun r => (paletteColor r.1, r.2)) = some res →
      ∃ idx : Int, 0 ≤ idx ∧ idx < 5 ∧ res.1 = paletteColor idx ∧
        (idx ∈ phaseErrorSet phase ↔ isError = true) := by
    intro isError hmap
    cases hidx : getRandomColorIndex fuel phase isError w with
    | none => simp [hidx] at hmap
    | some r =>
      obtain ⟨idx, w1⟩ := r
      simp only [hidx, Option.map_some', Option.some.injEq] at hmap
      obtain ⟨n, hn, hloop⟩ := getRandomColorIndex_eq_some fuel phase isError w idx w1 hidx
      obtain ⟨hlt, hcls, _⟩ := getRandomColorIndexLoop_spec isError fuel _ n w1 hloop
      subst hn
      refine ⟨(n : Int), Int.natCast_nonneg n, by exact_mod_cast hlt, by rw [← hmap], ?_⟩
      rw [phaseErrorSet_mem_iff phase w n hlt, hcls]
  cases isTarget
  · obtain ⟨idx, h0, h5, hc, hcls⟩ := key true (by simpa [getPhaseRandomColorError] using h)
    exact ⟨idx, h0, h5, hc, by simpa using hcls⟩
  · obtain ⟨idx, h0, h5, hc, hcls⟩ := key false (by simpa [getPhaseRandomColorValid] using h)
    exact ⟨idx, h0, h5, hc, by simpa using hcls⟩

/-- The loop of `updateButtonColorsBuffer` appends one suiting colour for each index it runs
over, as long as the buffer has room for them. -/
theorem updateButtonColorsLoop_colors (fuel : Nat) (indices : List Int) (w w1 : World)
    (h : updateButtonColorsLoop fuel indices w = some w1)
    (hroom : w.bufButtonColors.length + indices.length ≤ 8) :
    ∃ colors, w1.bufButtonColors = w.bufButtonColors ++ colors ∧
      List.Forall₂ (ColorSuits w.progState.currPhase w.bufButtonTargets) indices colors := by
  induction indices generalizing w with
  | nil =>
    simp only [updateButtonColorsLoop, Option.some.injEq] at h
    exact ⟨[], by rw [← h]; simp, List.Forall₂.nil⟩
  | cons i rest ih =>
    rw [updateButtonColorsLoop] at h
    cases hd : (if inTargetsBuffer w i = true
        then getPhaseRandomColorValid fuel w.progState.currPhase w
        else getPhaseRandomColorError fuel w.progState.currPhase w) with
    | none => simp [hd] at h
    | some res =>
      simp only [hd, Option.some_bind] at h
      obtain ⟨p1, r1, h1⟩ := colorDraw_frame fuel _ _ w res hd
      obtain ⟨idx, h0, h5, hc, hcls⟩ := colorDraw_class fuel _ _ w res hd
      have hlen : res.2.bufButtonColors.length < 8 := by
        rw [h1]
        simp only [List.length_cons] at hroom
        show w.bufButtonColors.length < 8
        omega
      have hfull : CircularBuffer.isFull BUTTONS_NUM.toNat res.2.bufButtonColors = false := by
        have h8 : BUTTONS_NUM.toNat = 8 := rfl
        simp only [CircularBuffer.isFull, h8, decide_eq_false_iff_not]
        omega
      rw [push_of_not_full _ _ _ hfull] at h
      obtain ⟨colors, hcols, hsuit⟩ := ih _ h (by
        simp only [List.length_append, List.length_singleton, List.length_cons] at hroom ⊢
        rw [h1]
        show w.bufButtonColors.length + 1 + rest.length ≤ 8
        omega)
      have hphase : res.2.progState.currPhase = w.progState.currPhase := by rw [h1]
      have htargets : res.2.bufButtonTargets = w.bufButtonTargets := by rw [h1]
      have hcolors : res.2.bufButtonColors = w.bufButtonColors := by rw [h1]
      refine ⟨res.1 :: colors, ?_, ?_⟩
      · rw [hcols]
        show (res.2.bufButtonColors ++ [res.1]) ++ colors = _
        rw [hcolors]
        simp
      · refine List.Forall₂.cons ?_ ?_
        · refine ⟨idx, h0, h5, hc, ?_⟩
          rw [hcls, ← inBuffer_eq_false_iff]
          rfl
        · have hs : List.Forall₂ (ColorSuits res.2.progState.currPhase res.2.bufButtonTargets)
              rest colors := hsuit
          rw [hphase, htargets] at hs
          exact hs

theorem buttonIndices_get (i : Nat) (h : i < buttonIndices.length) :
    buttonIndices.get ⟨i, h⟩ = (i : Int) := by
  have h8 : i < 8 := h
  interval_cases i <;> rfl

theorem updateButtonColorsBuffer_colors (fuel : Nat) (w w1 : World)
    (h : updateButtonColorsBuffer fuel w = some w1) :
    w1.bufButtonColors.length = 8 ∧
      ∀ i : Nat, i < 8 →
        ColorSuits w.progState.currPhase w.bufButtonTargets (i : Int)
          (w1.bufButtonColors.getD i 0) := by
  obtain ⟨colors, hcols, hsuit⟩ := updateButtonColorsLoop_colors fuel buttonIndices
    { w with bufButtonColors := [] } w1 h (by simp [buttonIndices])
  have hcols2 : w1.bufButtonColors = colors := by simpa using hcols
  have hlen : colors.length = 8 := by rw [← hsuit.length_eq]; rfl
  obtain ⟨_, hget⟩ := List.forall₂_iff_get.mp hsuit
  rw [hcols2]
  refine ⟨hlen, ?_⟩
  intro i hi
  have hi1 : i < buttonIndices.length := hi
  have hi2 : i < colors.length := by omega
  have hR := hget i hi1 hi2
  rw [buttonIndices_get i hi1] at hR
  rw [List.getD_eq_getElem colors 0 hi2]
  exact hR

/-- C17 (colour assignment). After `updateButtonColorsBuffer`, in any phase and for any target
buffer, whenever the colour draws return: the colour buffer holds exactly `BUTTONS_NUM = 8`
entries and, for every button index `i` of `[0, 8)`, entry `i` is a palette colour of the valid
class of the phase if `i` is in the target buffer and one of the error class if it is not; the
target buffer and the phase are as before. After `updateTargets`, moreover, the press buffer is
empty and `startMillis` is the current clock reading. -/
theorem updateButtonColorsBuffer_assigns_classes (fuel : Nat) (w w1 : World)
    (h : updateButtonColorsBuffer fuel w = some w1) :
    BUTTONS_NUM = 8 ∧
    w1.bufButtonColors.length = 8 ∧
    w1.bufButtonTargets = w.bufButtonTargets ∧
    w1.progState.currPhase = w.progState.currPhase ∧
    (∀ i : Nat, i < 8 →
      ∃ idx : Int, 0 ≤ idx ∧ idx < 5 ∧ w1.bufButtonColors.getD i 0 = paletteColor idx ∧
        (idx ∈ phaseErrorSet w.progState.currPhase ↔ (i : Int) ∉ w.bufButtonTargets)) ∧
    (∀ (now : Nat) (v v1 : World), updateTargets fuel now v = some v1 →
      v1.bufButtonPresses = [] ∧ v1.progState.startMillis = now ∧
      v1.bufButtonColors.length = 8 ∧
      ∀ i : Nat, i < 8 →
        ∃ idx : Int, 0 ≤ idx ∧ idx < 5 ∧ v1.bufButtonColors.getD i 0 = paletteColor idx ∧
          (idx ∈ phaseErrorSet v.progState.currPhase ↔ (i : Int) ∉ v1.bufButtonTargets)) := by
  obtain ⟨p, c, r, hframe⟩ := updateButtonColorsBuffer_frame fuel w w1 h
  obtain ⟨hlen, hsuit⟩ := updateButtonColorsBuffer_colors fuel w w1 h
  refine ⟨rfl, hlen, by rw [hframe], by rw [hframe], hsuit, ?_⟩
  intro now v v1 hv
  obtain ⟨p2, c2, l2, r2, hspec⟩ := updateTargets_spec fuel now v v1 hv
  have hdef : updateTargets fuel now v =
      (updateButtonColorsBuffer fuel
        (randomizeTargets (getPhaseNumTargets v.progState.currPhase v).1
          (getPhaseNumTargets v.progState.currPhase v).2)).map
        (fun w3 => ({ showTargetLeds w3 with
          progState := { (showTargetLeds w3).progState with startMillis := now }
          bufButtonPresses := [] } : World)) := rfl
  rw [hdef] at hv
  cases hcol : updateButtonColorsBuffer fuel
      (randomizeTargets (getPhaseNumTargets v.progState.currPhase v).1
        (getPhaseNumTargets v.progState.currPhase v).2) with
  | none => simp [hcol] at hv
  | some w3 =>
    simp only [hcol, Option.map_some', Option.some.injEq] at hv
    obtain ⟨hlen3, hsuit3⟩ := updateButtonColorsBuffer_colors fuel _ w3 hcol
    obtain ⟨l4, h4⟩ := showTargetLeds_frame w3
    obtain ⟨rr, hrand⟩ := randomizeTargets_frame
      (getPhaseNumTargets v.progState.currPhase v).1
      (getPhaseNumTargets v.progState.currPhase v).2
    have hcolors : v1.bufButtonColors = w3.bufButtonColors := by rw [← hv, h4]
    have htargets : v1.bufButtonTargets =
        (randomizeTargets (getPhaseNumTargets v.progState.currPhase v).1
          (getPhaseNumTargets v.progState.currPhase v).2).bufButtonTargets := by rw [hspec]
    have hphase : (randomizeTargets (getPhaseNumTargets v.progState.currPhase v).1
        (getPhaseNumTargets v.progState.currPhase v).2).progState.currPhase =
          v.progState.currPhase := by
      rw [hrand]
      rfl
    refine ⟨by rw [hspec], by rw [hspec], by rw [hcolors]; exact hlen3, ?_⟩
    intro i hi
    have hs := hsuit3 i hi
    rw [hphase, ← htargets, ← hcolors] at hs
    exact hs

theorem scenarioAColors_returned : updateButtonColorsBuffer 5 scenarioA = some scenarioAColors :=
  eq_some_getD_of_isSome _ _ (by decide)

/-- Witness of C17: scenario A (phase 0, error colour blue, targets 1, 3, 5) with the draws
0, 1, 2, ...: the targets get white, the other buttons blue. -/
theorem updateButtonColorsBuffer_assigns_classes_witness :
    updateButtonColorsBuffer 5 scenarioA = some scenarioAColors ∧
    scenarioAColors.bufButtonColors =
      [Color 0 0 255, Color 255 255 255, Color 0 0 255, Color 255 255 255,
        Color 0 0 255, Color 255 255 255, Color 0 0 255, Color 0 0 255] ∧
    scenarioAColors.bufButtonColors.length = 8 ∧
    (∀ i : Nat, i < 8 →
      ∃ idx : Int, 0 ≤ idx ∧ idx < 5 ∧
        scenarioAColors.bufButtonColors.getD i 0 = paletteColor idx ∧
        (idx ∈ phaseErrorSet scenarioA.progState.currPhase ↔
          (i : Int) ∉ scenarioA.bufButtonTargets)) :=
  ⟨scenarioAColors_returned, by decide,
    (updateButtonColorsBuffer_assigns_classes 5 scenarioA scenarioAColors
      scenarioAColors_returned).2.1,
    (updateButtonColorsBuffer_assigns_classes 5 scenarioA scenarioAColors
      scenarioAColors_returned).2.2.2.2.1⟩

/-! ## The press buffer -/

/-- What a handler does to the press buffer: nothing, or it empties it, or it is `onPress`
pushing an index that was not recorded yet. -/
theorem step_presses (fuel : Nat) (ev : Event) (w w1 : World)
    (h : step fuel ev w = some w1) :
    w1.bufButtonPresses = w.bufButtonPresses ∨ w1.bufButtonPresses = [] ∨
      ∃ idx, ev = Event.press idx ∧ idx ∉ w.bufButtonPresses ∧
        w1.bufButtonPresses = CircularBuffer.push BUTTONS_BUF_SIZE w.bufButtonPresses idx := by
  cases ev with
  | tick now =>
    simp only [step] at h
    cases hfin : w.progState.isFinished with
    | true =>
      rw [updateState_finished fuel now w hfin] at h
      rw [← Option.some.inj h]
      exact Or.inl rfl
    | false =>
      by_cases hphase : w.progState.currPhase ≥ FINAL_PHASE
      · rw [updateState_finishing fuel now w hfin hphase] at h
        obtain ⟨l, r, hf⟩ := onFinish_frame w
        rw [← Option.some.inj h, hf]
        exact Or.inl rfl
      · have hlt : w.progState.currPhase < FINAL_PHASE := not_le.mp hphase
        cases hlock : w.progState.isLocked with
        | true =>
          rw [updateState_locked fuel now w hfin hlt hlock] at h
          rw [← Option.some.inj h]
          exact Or.inl rfl
        | false =>
          rw [updateState_playing fuel now w hfin hlt hlock] at h
          split_ifs at h with h0 herr hexp hmatch
          · obtain ⟨p, c, l, r, hw⟩ := updateTargets_spec fuel now w w1 h
            rw [hw]
            exact Or.inr (Or.inl rfl)
          · obtain ⟨l, he⟩ := errorAndRestart_frame w
            rw [← Option.some.inj h, he]
            exact Or.inr (Or.inl rfl)
          · obtain ⟨l, he⟩ := errorAndRestart_frame w
            rw [← Option.some.inj h, he]
            exact Or.inr (Or.inl rfl)
          · by_cases hstreak :
                w.progState.hitStreak + 1 ≥ getPhaseHitStreak w.progState.currPhase
            · obtain ⟨l, r, ha⟩ := advanceProgress_newPhase fuel now w hstreak
              rw [ha] at h
              rw [← Option.some.inj h]
              exact Or.inl rfl
            · rw [advanceProgress_sameRound fuel now w (not_le.mp hstreak)] at h
              obtain ⟨p, c, l, r, hw⟩ := updateTargets_spec fuel now _ w1 h
              rw [hw]
              exact Or.inr (Or.inl rfl)
          · obtain ⟨l, hs⟩ := showTargetLeds_frame w
            rw [← Option.some.inj h, hs]
            exact Or.inl rfl
  | press idx =>
    simp only [step, Option.some.injEq] at h
    rw [← h]
    cases hlock : w.progState.isLocked with
    | true =>
      rw [onPress_of_locked idx w hlock]
      exact Or.inl rfl
    | false =>
      by_cases hdup : idx ∈ w.bufButtonPresses
      · have hin : inBuffer w.bufButtonPresses idx = true := (inBuffer_eq_true_iff _ _).mpr hdup
        left
        simp [onPress, hlock, hin]
      · have hin : inBuffer w.bufButtonPresses idx = false :=
          (inBuffer_eq_false_iff _ _).mpr hdup
        right
        right
        exact ⟨idx, rfl, hdup, by simp [onPress, hlock, hin]⟩
  | phasePress now =>
    simp only [step, onPhasePress] at h
    split_ifs at h with hl
    · rw [← Option.some.inj h]
      exact Or.inl rfl
    · obtain ⟨p, c, l, r, hw⟩ := updateTargets_spec fuel now _ w1 h
      rw [hw]
      exact Or.inr (Or.inl rfl)

/-- A buffer of distinct buttons holds 8 entries at most. -/
theorem length_le_of_targetsOk (buf : List Int) (hok : TargetsOk buf) : buf.length ≤ 8 := by
  have hsub : buf ⊆ buttonIndices := by
    intro x hx
    have hr := hok.2 x hx
    simp only [BUTTONS_NUM] at hr
    simp only [buttonIndices, List.mem_cons, List.mem_singleton, List.not_mem_nil, or_false]
    omega
  exact (List.subperm_of_subset hok.1 hsub).length_le

theorem reachableOnPanel_presses (w : World) (hreach : ReachableOnPanel w) :
    TargetsOk w.bufButtonPresses := by
  induction hreach with
  | boot w0 =>
    show TargetsOk []
    simp [TargetsOk]
  | next fuel ev w w1 _ hpanel hstep ih =>
    rcases step_presses fuel ev w w1 hstep with hsame | hempty | ⟨idx, hev, hnew, hpush⟩
    · rw [hsame]
      exact ih
    · rw [hempty]
      simp [TargetsOk]
    · have hlen := length_le_of_targetsOk _ ih
      have hfull : CircularBuffer.isFull BUTTONS_BUF_SIZE w.bufButtonPresses = false := by
        simp only [CircularBuffer.isFull, BUTTONS_BUF_SIZE, decide_eq_false_iff_not]
        omega
      rw [hev] at hpanel
      have hrange : 0 ≤ idx ∧ idx < BUTTONS_NUM := by simpa [Event.onPanel] using hpanel
      rw [hpush, push_of_not_full _ _ _ hfull]
      refine ⟨List.Nodup.append ih.1 (List.nodup_singleton idx) (by simpa using hnew), ?_⟩
      intro x hx
      rcases List.mem_append.mp hx with hx | hx
      · exact ih.2 x hx
      · rw [List.mem_singleton.mp hx]
        exact hrange

/-- C18 (press buffer). In every world reachable from boot when the button presses carry indices
of `[0, BUTTONS_NUM)`, the press buffer holds pairwise distinct indices, each in `[0, 8)`, and at
most 8 of them; so the buffer, of capacity `BUTTONS_BUF_SIZE = 10`, is not full when `onPress`
pushes, and `onPress` keeps every recorded press: it appends the new index or changes nothing. -/
theorem press_buffer_distinct_never_full (w : World) (hreach : ReachableOnPanel w) :
    BUTTONS_BUF_SIZE = 10 ∧
    w.bufButtonPresses.Nodup ∧
    (∀ x ∈ w.bufButtonPresses, 0 ≤ x ∧ x < 8) ∧
    w.bufButtonPresses.length ≤ 8 ∧
    CircularBuffer.isFull BUTTONS_BUF_SIZE w.bufButtonPresses = false ∧
    (∀ idx : Int, (onPress idx w).bufButtonPresses =
      if w.progState.isLocked = true ∨ idx ∈ w.bufButtonPresses then w.bufButtonPresses
      else w.bufButtonPresses ++ [idx]) := by
  have hok := reachableOnPanel_presses w hreach
  have hlen := length_le_of_targetsOk _ hok
  have hfull : CircularBuffer.isFull BUTTONS_BUF_SIZE w.bufButtonPresses = false := by
    simp only [CircularBuffer.isFull, BUTTONS_BUF_SIZE, decide_eq_false_iff_not]
    omega
  refine ⟨rfl, hok.1, hok.2, hlen, hfull, ?_⟩
  intro idx
  cases hlock : w.progState.isLocked with
  | true =>
    rw [onPress_of_locked idx w hlock]
    simp
  | false =>
    by_cases hdup : idx ∈ w.bufButtonPresses
    · have hin : inBuffer w.bufButtonPresses idx = true := (inBuffer_eq_true_iff _ _).mpr hdup
      simp [onPress, hlock, hin, hdup]
    · have hin : inBuffer w.bufButtonPresses idx = false :=
        (inBuffer_eq_false_iff _ _).mpr hdup
      simp [onPress, hlock, hin, hdup, push_of_not_full _ _ _ hfull]

theorem firstRound_unlocked : onPhasePress 5 1000 (setup scenarioD) = some firstRound :=
  eq_some_getD_of_isSome _ _ (by decide)

/-- Witness of C18: boot, the unlock press, then the presses 3, 1 and 3 again: the buffer holds
3 and 1. -/
theorem press_buffer_distinct_never_full_witness :
    ReachableOnPanel (onPress 3 (onPress 1 (onPress 3 firstRound))) ∧
    (onPress 3 (onPress 1 (onPress 3 firstRound))).bufButtonPresses = [3, 1] ∧
    (onPress 3 (onPress 1 (onPress 3 firstRound))).bufButtonPresses.Nodup ∧
    CircularBuffer.isFull BUTTONS_BUF_SIZE
      (onPress 3 (onPress 1 (onPress 3 firstRound))).bufButtonPresses = false :=
  have h0 : ReachableOnPanel firstRound :=
    ReachableOnPanel.next 5 (Event.phasePress 1000) (setup scenarioD) firstRound
      (ReachableOnPanel.boot scenarioD) rfl firstRound_unlocked
  have h1 : ReachableOnPanel (onPress 3 firstRound) :=
    ReachableOnPanel.next 5 (Event.press 3) firstRound _ h0 (by decide) rfl
  have h2 : ReachableOnPanel (onPress 1 (onPress 3 firstRound)) :=
    ReachableOnPanel.next 5 (Event.press 1) _ _ h1 (by decide) rfl
  have h3 : ReachableOnPanel (onPress 3 (onPress 1 (onPress 3 firstRound))) :=
    ReachableOnPanel.next 5 (Event.press 3) _ _ h2 (by decide) rfl
  ⟨h3, by decide, (press_buffer_distinct_never_full _ h3).2.1,
    (press_buffer_distinct_never_full _ h3).2.2.2.2.1⟩

/-! ## Fairness of the draws is kept by every handler -/

theorem randomColor_fair (w : World) (hfair : FairDraws w.rnd) :
    FairDraws (randomColor w).2.rnd :=
  fairDraws_shift _ 1 (fairDraws_shift _ 1 (fairDraws_shift _ 1 hfair))

theorem showSuccessPixels_fair (indices : List Int) (w : World) (hfair : FairDraws w.rnd) :
    FairDraws (showSuccessPixels indices w).rnd := by
  induction indices generalizing w with
  | nil => exact hfair
  | cons i rest ih =>
    show FairDraws
      (showSuccessPixels rest (ledSetPixelColor i (randomColor w).1 (randomColor w).2)).rnd
    apply ih
    obtain ⟨l, hl⟩ := ledSetPixelColor_frame i (randomColor w).1 (randomColor w).2
    rw [hl]
    exact randomColor_fair w hfair

theorem showSuccessLedEffectLoop_fair (n : Nat) (w : World) (hfair : FairDraws w.rnd) :
    FairDraws (showSuccessLedEffectLoop n w).rnd := by
  induction n generalizing w with
  | zero => exact hfair
  | succ n ih =>
    rw [showSuccessLedEffectLoop]
    exact ih _ (showSuccessPixels_fair buttonIndices (ledClear w) hfair)

theorem showSuccessLedEffect_fair (numLoops : Int) (w : World) (hfair : FairDraws w.rnd) :
    FairDraws (showSuccessLedEffect numLoops w).rnd :=
  showSuccessLedEffectLoop_fair _ w hfair

theorem colorDraw_fair (fuel : Nat) (phase : Int) (isTarget : Bool) (w : World)
    (res : Nat × World) (hfair : FairDraws w.rnd)
    (h : (if isTarget = true then getPhaseRandomColorValid fuel phase w
      else getPhaseRandomColorError fuel phase w) = some res) :
    FairDraws res.2.rnd := by
  have key : ∀ isError, (getRandomColorIndex fuel phase isError w).map
      (fun r => (paletteColor r.1, r.2)) = some res → FairDraws res.2.rnd := by
    intro isError hmap
    cases hidx : getRandomColorIndex fuel phase isError w with
    | none => simp [hidx] at hmap
    | some r =>
      obtain ⟨idx, w1⟩ := r
      simp only [hidx, Option.map_some', Option.some.injEq] at hmap
      obtain ⟨n, _, hloop⟩ := getRandomColorIndex_eq_some fuel phase isError w idx w1 hidx
      obtain ⟨_, _, k, hk⟩ := getRandomColorIndexLoop_spec isError fuel _ n w1 hloop
      rw [← hmap]
      show FairDraws w1.rnd
      rw [hk]
      show FairDraws (fun n => (refreshErrorPaletteBuffer phase w).rnd (n + k))
      rw [refreshErrorPaletteBuffer_rnd]
      exact fairDraws_shift w.rnd k hfair
  cases isTarget
  · exact key true (by simpa [getPhaseRandomColorError] using h)
  · exact key false (by simpa [getPhaseRandomColorValid] using h)

theorem updateButtonColorsLoop_fair (fuel : Nat) (indices : List Int) (w w1 : World)
    (hfair : FairDraws w.rnd) (h : updateButtonColorsLoop fuel indices w = some w1) :
    FairDraws w1.rnd := by
  induction indices generalizing w with
  | nil =>
    simp only [updateButtonColorsLoop, Option.some.injEq] at h
    rw [← h]
    exact hfair
  | cons i rest ih =>
    rw [updateButtonColorsLoop] at h
    cases hd : (if inTargetsBuffer w i = true
        then getPhaseRandomColorValid fuel w.progState.currPhase w
        else getPhaseRandomColorError fuel w.progState.currPhase w) with
    | none => simp [hd] at h
    | some res =>
      simp only [hd, Option.some_bind] at h
      refine ih _ ?_ h
      exact colorDraw_fair fuel _ _ w res hfair hd

theorem updateTargets_fair (fuel now : Nat) (w w1 : World) (hfair : FairDraws w.rnd)
    (h : updateTargets fuel now w = some w1) : FairDraws w1.rnd := by
  have h1 : FairDraws (getPhaseNumTargets w.progState.currPhase w).2.rnd :=
    fairDraws_shift w.rnd 1 hfair
  have h2 : FairDraws (randomizeTargets (getPhaseNumTargets w.progState.currPhase w).1
      (getPhaseNumTargets w.progState.currPhase w).2).rnd :=
    randomizeTargetsLoop_fair _ _ h1
  have hdef : updateTargets fuel now w =
      (updateButtonColorsBuffer fuel
        (randomizeTargets (getPhaseNumTargets w.progState.currPhase w).1
          (getPhaseNumTargets w.progState.currPhase w).2)).map
        (fun w3 => ({ showTargetLeds w3 with
          progState := { (showTargetLeds w3).progState with startMillis := now }
          bufButtonPresses := [] } : World)) := rfl
  rw [hdef] at h
  cases hcol : updateButtonColorsBuffer fuel
      (randomizeTargets (getPhaseNumTargets w.progState.currPhase w).1
        (getPhaseNumTargets w.progState.currPhase w).2) with
  | none => simp [hcol] at h
  | some w3 =>
    simp only [hcol, Option.map_some', Option.some.injEq] at h
    have hcol2 : updateButtonColorsLoop fuel buttonIndices
        { randomizeTargets (getPhaseNumTargets w.progState.currPhase w).1
            (getPhaseNumTargets w.progState.currPhase w).2 with bufButtonColors := [] } =
          some w3 := hcol
    have h3 : FairDraws w3.rnd := by
      refine updateButtonColorsLoop_fair fuel buttonIndices _ w3 ?_ hcol2
      exact h2
    obtain ⟨l4, h4⟩ := showTargetLeds_frame w3
    rw [← h, h4]
    exact h3

theorem onFinish_fair (w : World) (hfair : FairDraws w.rnd) : FairDraws (onFinish w).rnd := by
  unfold onFinish
  exact showSuccessLedEffect_fair 0 (openRelay w) hfair

theorem advanceProgress_newPhase_fair (fuel now : Nat) (w w1 : World)
    (hfair : FairDraws w.rnd)
    (hstreak : w.progState.hitStreak + 1 ≥ getPhaseHitStreak w.progState.currPhase)
    (h : advanceProgress fuel now w = some w1) : FairDraws w1.rnd := by
  obtain ⟨l, r, hs⟩ := showSuccessLedEffect_frame 1
    { w with progState := { w.progState with hitStreak := w.progState.hitStreak + 1 } }
  have hf := showSuccessLedEffect_fair 1
    { w with progState := { w.progState with hitStreak := w.progState.hitStreak + 1 } } hfair
  rw [hs] at hf
  unfold advanceProgress at h
  simp only [hstreak, decide_True, if_true, hs, Option.some.injEq] at h
  rw [← h]
  exact hf

theorem step_fair (fuel : Nat) (ev : Event) (w w1 : World) (hfair : FairDraws w.rnd)
    (h : step fuel ev w = some w1) : FairDraws w1.rnd := by
  cases ev with
  | tick now =>
    simp only [step] at h
    cases hfin : w.progState.isFinished with
    | true =>
      rw [updateState_finished fuel now w hfin] at h
      rw [← Option.some.inj h]
      exact hfair
    | false =>
      by_cases hphase : w.progState.currPhase ≥ FINAL_PHASE
      · rw [updateState_finishing fuel now w hfin hphase] at h
        rw [← Option.some.inj h]
        dsimp only
        exact onFinish_fair w hfair
      · have hlt : w.progState.currPhase < FINAL_PHASE := not_le.mp hphase
        cases hlock : w.progState.isLocked with
        | true =>
          rw [updateState_locked fuel now w hfin hlt hlock] at h
          rw [← Option.some.inj h]
          exact hfair
        | false =>
          rw [updateState_playing fuel now w hfin hlt hlock] at h
          split_ifs at h with h0 herr hexp hmatch
          · exact updateTargets_fair fuel now w w1 hfair h
          · obtain ⟨l, he⟩ := errorAndRestart_frame w
            rw [← Option.some.inj h, he]
            exact hfair
          · obtain ⟨l, he⟩ := errorAndRestart_frame w
            rw [← Option.some.inj h, he]
            exact hfair
          · by_cases hstreak :
                w.progState.hitStreak + 1 ≥ getPhaseHitStreak w.progState.currPhase
            · exact advanceProgress_newPhase_fair fuel now w w1 hfair hstreak h
            · rw [advanceProgress_sameRound fuel now w (not_le.mp hstreak)] at h
              refine updateTargets_fair fuel now _ w1 ?_ h
              exact hfair
          · obtain ⟨l, hs⟩ := showTargetLeds_frame w
            rw [← Option.some.inj h, hs]
            exact hfair
  | press idx =>
    simp only [step, Option.some.injEq] at h
    obtain ⟨p, hp⟩ := onPress_frame idx w
    rw [← h, hp]
    exact hfair
  | phasePress now =>
    simp only [step, onPhasePress] at h
    split_ifs at h with hl
    · rw [← Option.some.inj h]
      exact hfair
    · refine updateTargets_fair fuel now _ w1 ?_ h
      exact hfair

theorem runEvents_fair (fuel : Nat) (events : List Event) (w w1 : World)
    (hfair : FairDraws w.rnd) (hrun : runEvents fuel events w = some w1) :
    FairDraws w1.rnd := by
  induction events generalizing w with
  | nil =>
    simp only [runEvents, Option.some.injEq] at hrun
    rw [← hrun]
    exact hfair
  | cons ev rest ih =>
    rw [runEvents] at hrun
    cases hstep : step fuel ev w with
    | none => simp [hstep] at hrun
    | some w2 =>
      simp only [hstep, Option.some_bind] at hrun
      exact ih w2 (step_fair fuel ev w w2 hfair hstep) hrun

theorem playRounds_fair (fuel now n : Nat) (w w1 : World)
    (hfair : FairDraws w.rnd) (hplay : playRounds fuel now n w = some w1) :
    FairDraws w1.rnd := by
  induction n generalizing w with
  | zero =>
    simp only [playRounds, Option.some.injEq] at hplay
    rw [← hplay]
    exact hfair
  | succ n ih =>
    rw [playRounds] at hplay
    cases hround : playRound fuel now w with
    | none => simp [hround] at hplay
    | some w2 =>
      simp only [hround, Option.some_bind] at hplay
      refine ih w2 ?_ hplay
      unfold playRound at hround
      cases hfirst : (if w.progState.isLocked = true then onPhasePress fuel now w
          else some w) with
      | none => simp [hfirst] at hround
      | some w3 =>
        simp only [hfirst, Option.some_bind] at hround
        have hfair3 : FairDraws w3.rnd := by
          split_ifs at hfirst with hl
          · exact step_fair fuel (Event.phasePress now) w w3 hfair hfirst
          · rw [← Option.some.inj hfirst]
            exact hfair
        exact runEvents_fair fuel _ w3 w2 hfair3 hround

theorem wonWorld_fair : FairDraws wonWorld.rnd :=
  playRounds_fair 5 1000 13 (setup scenarioD) wonWorld countingDraws_fair wonWorld_played

theorem finishedWorld_fair : FairDraws finishedWorld.rnd := by
  unfold finishedWorld
  dsimp only
  exact onFinish_fair wonWorld wonWorld_fair

/-! ## Presses in the finished engine -/

/-- What `updateTargets` selects: 5 or 6 distinct buttons. -/
theorem updateTargets_targets (fuel now : Nat) (w w1 : World)
    (h : updateTargets fuel now w = some w1) :
    TargetsOk w1.bufButtonTargets ∧
      (w1.bufButtonTargets.length = 5 ∨ w1.bufButtonTargets.length = 6) := by
  obtain ⟨p, c, l, r, hw⟩ := updateTargets_spec fuel now w w1 h
  have htargets : w1.bufButtonTargets =
      (randomizeTargets (getPhaseNumTargets w.progState.currPhase w).1
        (getPhaseNumTargets w.progState.currPhase w).2).bufButtonTargets := by rw [hw]
  rw [htargets]
  refine ⟨randomizeTargets_ok _ _, ?_⟩
  have hlen := randomizeTargets_length (getPhaseNumTargets w.progState.currPhase w).1
    (getPhaseNumTargets w.progState.currPhase w).2
  rcases getPhaseNumTargets_value w.progState.currPhase w with h5 | h6
  · rw [h5] at hlen ⊢
    have := hlen (by norm_num)
    left
    have hmin : min (5 : Int) 8 = 5 := by decide
    rw [hmin] at this
    exact_mod_cast this
  · rw [h6] at hlen ⊢
    have := hlen (by norm_num)
    right
    have hmin : min (6 : Int) 8 = 6 := by decide
    rw [hmin] at this
    exact_mod_cast this

/-- The unlock press in a locked world: the round that `updateTargets` begins, unlocked. -/
theorem onPhasePress_of_locked (fuel now : Nat) (w w1 : World)
    (hlock : w.progState.isLocked = true) (h : onPhasePress fuel now w = some w1) :
    (∃ palette targets colors leds rnd,
      w1 = { w with
        bufErrorPalette := palette
        bufButtonPresses := []
        bufButtonTargets := targets
        bufButtonColors := colors
        progState := { w.progState with startMillis := now, isLocked := false }
        ledStrip := leds
        ledButtonPhase := false
        rnd := rnd }) ∧
    TargetsOk w1.bufButtonTargets ∧
    (w1.bufButtonTargets.length = 5 ∨ w1.bufButtonTargets.length = 6) := by
  simp only [onPhasePress, hlock, Bool.not_true, Bool.false_eq_true, if_false] at h
  obtain ⟨p, c, l, r, hw⟩ := updateTargets_spec fuel now _ w1 h
  exact ⟨⟨p, _, c, l, r, hw⟩, updateTargets_targets fuel now _ w1 h⟩

theorem onPhasePress_of_unlocked (fuel now : Nat) (w : World)
    (hlock : w.progState.isLocked = false) : onPhasePress fuel now w = some w := by
  simp [onPhasePress, hlock]

/-- On a fair stream the unlock press of a locked world returns, for every large enough bound. -/
theorem onPhasePress_returns (now : Nat) (w : World) (hlock : w.progState.isLocked = true)
    (hfair : FairDraws w.rnd) :
    ∃ fuel0, ∀ fuel, fuel0 ≤ fuel → ∃ w1, onPhasePress fuel now w = some w1 := by
  obtain ⟨f0, hf0⟩ := updateTargets_returns now
    { w with progState := { w.progState with isLocked := false }, ledButtonPhase := false }
    hfair
  refine ⟨f0, fun fuel hle => ?_⟩
  obtain ⟨w1, hw1⟩ := hf0 fuel hle
  exact ⟨w1, by simp only [onPhasePress, hlock, Bool.not_true, Bool.false_eq_true, if_false]; exact hw1⟩

theorem finishing_frame (w : World) :
    ∃ leds rnd,
      ({ onFinish w with
          progState := { (onFinish w).progState with isFinished := true } } : World) =
        { w with
          progState := { w.progState with isFinished := true }
          relay := true
          ledStrip := leds
          rnd := rnd } := by
  obtain ⟨l, r, hf⟩ := onFinish_frame w
  exact ⟨l, r, by rw [hf]⟩

set_option maxRecDepth 100000 in
theorem unlockedWonWorld_returned : onPhasePress 5 2000 wonWorld = some unlockedWonWorld :=
  eq_some_getD_of_isSome _ _ (by decide)

theorem unlockedWonWorld_state :
    unlockedWonWorld.progState.isLocked = false ∧
    unlockedWonWorld.progState.isFinished = false ∧
    unlockedWonWorld.progState.currPhase = 3 ∧ unlockedWonWorld.bufButtonPresses = [] := by
  obtain ⟨⟨p, t, c, l, r, hw⟩, _⟩ := onPhasePress_of_locked 5 2000 wonWorld unlockedWonWorld
    wonWorld_phase.2.2.1 unlockedWonWorld_returned
  rw [hw]
  dsimp only
  exact ⟨rfl, wonWorld_phase.2.1, wonWorld_phase.1, rfl⟩

theorem unlockedFinishedWorld_reachable : Reachable unlockedFinishedWorld :=
  Reachable.next 5 (Event.tick 2050) unlockedWonWorld unlockedFinishedWorld
    (Reachable.next 5 (Event.phasePress 2000) wonWorld unlockedWonWorld
      (playRounds_reachable 5 1000 13 (setup scenarioD) wonWorld (Reachable.boot scenarioD)
        wonWorld_played)
      unlockedWonWorld_returned)
    (updateState_finishing 5 2050 unlockedWonWorld unlockedWonWorld_state.2.1
      (by rw [unlockedWonWorld_state.2.2.1]; decide))

theorem unlockedFinishedWorld_state :
    unlockedFinishedWorld.progState.isFinished = true ∧
    unlockedFinishedWorld.progState.isLocked = false ∧
    unlockedFinishedWorld.bufButtonPresses = [] := by
  obtain ⟨l, r, hf⟩ := finishing_frame unlockedWonWorld
  unfold unlockedFinishedWorld
  rw [hf]
  dsimp only
  exact ⟨rfl, unlockedWonWorld_state.1, unlockedWonWorld_state.2.2.2⟩

theorem onPress_first (idx : Int) (w : World) (hlock : w.progState.isLocked = false)
    (hempty : w.bufButtonPresses = []) : (onPress idx w).bufButtonPresses = [idx] := by
  simp [onPress, hlock, hempty, inBuffer, CircularBuffer.push, CircularBuffer.isFull,
    BUTTONS_BUF_SIZE]

theorem finishedWorld_locked : finishedWorld.progState.isLocked = true := by
  rw [finishedWorld_progState]
  dsimp only
  exact wonWorld_phase.2.2.1

/-- C13, as stated, fails. The finished world reached by boot, thirteen faultless rounds and a
tick is locked, and an unlock press there returns with `isLocked` false; the finished world
reached by boot, the thirteen rounds, an unlock press and a tick is unlocked with an empty press
buffer, and a press of button 0 there records 0. -/
theorem finished_engine_handles_presses :
    (Reachable finishedWorld ∧ finishedWorld.progState.isFinished = true ∧
      finishedWorld.progState.isLocked = true ∧
      ∃ fuel w1, onPhasePress fuel 3000 finishedWorld = some w1 ∧
        w1.progState.isLocked = false ∧ w1.progState.startMillis = 3000 ∧
        (w1.bufButtonTargets.length = 5 ∨ w1.bufButtonTargets.length = 6)) ∧
    (Reachable unlockedFinishedWorld ∧ unlockedFinishedWorld.progState.isFinished = true ∧
      unlockedFinishedWorld.bufButtonPresses = [] ∧
      (onPress 0 unlockedFinishedWorld).bufButtonPresses = [0]) := by
  refine ⟨⟨finishedWorld_reachable, rfl, finishedWorld_locked, ?_⟩,
    ⟨unlockedFinishedWorld_reachable, unlockedFinishedWorld_state.1,
      unlockedFinishedWorld_state.2.2,
      onPress_first 0 unlockedFinishedWorld unlockedFinishedWorld_state.2.1
        unlockedFinishedWorld_state.2.2⟩⟩
  obtain ⟨f0, hf0⟩ := onPhasePress_returns 3000 finishedWorld finishedWorld_locked
    finishedWorld_fair
  obtain ⟨w1, hw1⟩ := hf0 f0 (le_refl _)
  obtain ⟨⟨p, t, c, l, r, hw⟩, _, hlen⟩ := onPhasePress_of_locked f0 3000 finishedWorld w1
    finishedWorld_locked hw1
  exact ⟨f0, w1, hw1, by rw [hw], by rw [hw], hlen⟩

/-- C13, amended. In every world with `isFinished = true`: a tick returns the world as it is; a
press of a button changes nothing but the press buffer, and nothing at all when the engine is
locked; an unlock press changes nothing when the engine is unlocked, and whenever it returns it
leaves `currPhase`, `hitStreak`, `isFinished` and the relay as they are. -/
theorem finished_engine_frame (fuel now : Nat) (idx : Int) (w : World)
    (hfin : w.progState.isFinished = true) :
    updateState fuel now w = some w ∧
    onPress idx w = { w with bufButtonPresses := (onPress idx w).bufButtonPresses } ∧
    (w.progState.isLocked = true → onPress idx w = w) ∧
    (w.progState.isLocked = false → onPhasePress fuel now w = some w) ∧
    (∀ w1, onPhasePress fuel now w = some w1 →
      w1.progState.currPhase = w.progState.currPhase ∧
      w1.progState.hitStreak = w.progState.hitStreak ∧
      w1.progState.isFinished = true ∧ w1.relay = w.relay) := by
  refine ⟨updateState_finished fuel now w hfin, ?_, onPress_of_locked idx w,
    onPhasePress_of_unlocked fuel now w, ?_⟩
  · obtain ⟨p, hp⟩ := onPress_frame idx w
    rw [hp]
  · intro w1 h1
    cases hlock : w.progState.isLocked with
    | true =>
      obtain ⟨⟨p, t, c, l, r, hw⟩, _⟩ := onPhasePress_of_locked fuel now w w1 hlock h1
      rw [hw]
      exact ⟨rfl, rfl, hfin, rfl⟩
    | false =>
      rw [onPhasePress_of_unlocked fuel now w hlock] at h1
      rw [← Option.some.inj h1]
      exact ⟨rfl, rfl, hfin, rfl⟩

/-- Witness of C13, amended: the finished, locked world reached by thirteen faultless rounds. -/
theorem finished_engine_frame_witness :
    finishedWorld.progState.isFinished = true ∧
    updateState 5 3000 finishedWorld = some finishedWorld ∧
    onPress 2 finishedWorld = finishedWorld :=
  ⟨rfl, (finished_engine_frame 5 3000 2 finishedWorld rfl).1,
    (finished_engine_frame 5 3000 2 finishedWorld rfl).2.2.1 finishedWorld_locked⟩
/-! ## The unlock press -/

/-- The unlock press, for a clock reading other than 0: ignored while unlocked; while locked it
unlocks and begins a round (press buffer empty, `startMillis` the clock reading, 5 or 6 distinct
targets, 8 colours), and the next tick does not begin another round: it keeps the targets and
the start time, or, the round being expired, it restarts the phase. -/
theorem onPhasePress_begins_round (fuel now : Nat) (w w1 : World)
    (hlock : w.progState.isLocked = true) (hnow : now ≠ 0)
    (h : onPhasePress fuel now w = some w1) :
    w1.progState.isLocked = false ∧ w1.bufButtonPresses = [] ∧
    w1.progState.startMillis = now ∧ TargetsOk w1.bufButtonTargets ∧
    (w1.bufButtonTargets.length = 5 ∨ w1.bufButtonTargets.length = 6) ∧
    (∀ fuel2 now2 w2, updateState fuel2 now2 w1 = some w2 →
      (w2.bufButtonTargets = w1.bufButtonTargets ∧ w2.progState.startMillis = now) ∨
      (isExpired now2 w1 = true ∧ w2.bufButtonTargets = [] ∧ w2.progState.isLocked = true)) := by
  obtain ⟨⟨p, t, c, l, r, hw⟩, hok, hlen⟩ := onPhasePress_of_locked fuel now w w1 hlock h
  have hunlocked : w1.progState.isLocked = false := by rw [hw]
  have hpresses : w1.bufButtonPresses = [] := by rw [hw]
  have hstart : w1.progState.startMillis = now := by rw [hw]
  refine ⟨hunlocked, hpresses, hstart, hok, hlen, ?_⟩
  intro fuel2 now2 w2 h2
  cases hfin : w1.progState.isFinished with
  | true =>
    rw [updateState_finished fuel2 now2 w1 hfin] at h2
    rw [← Option.some.inj h2]
    exact Or.inl ⟨rfl, hstart⟩
  | false =>
    by_cases hphase : w1.progState.currPhase ≥ FINAL_PHASE
    · rw [updateState_finishing fuel2 now2 w1 hfin hphase] at h2
      obtain ⟨l2, r2, hf⟩ := finishing_frame w1
      rw [← Option.some.inj h2, hf]
      exact Or.inl ⟨rfl, hstart⟩
    · rw [updateState_playing fuel2 now2 w1 hfin (not_le.mp hphase) hunlocked] at h2
      have hround : ¬ w1.progState.startMillis = 0 := by rw [hstart]; exact hnow
      have herr : isPressesBufferError w1 = false := by
        simp [isPressesBufferError, hpresses, isPressesBufferErrorLoop]
      have hmatch : isPressesBufferMatch w1 = false := by
        have hne : w1.bufButtonTargets.length ≠ w1.bufButtonPresses.length := by
          rw [hpresses]
          simp only [List.length_nil]
          omega
        simp [isPressesBufferMatch, hne]
      simp only [hround, herr, hmatch, if_false, Bool.false_eq_true] at h2
      split_ifs at h2 with hexp
      · obtain ⟨l2, he⟩ := errorAndRestart_frame w1
        rw [← Option.some.inj h2, he]
        exact Or.inr ⟨hexp, rfl, rfl⟩
      · obtain ⟨l2, hs⟩ := showTargetLeds_frame w1
        rw [← Option.some.inj h2, hs]
        exact Or.inl ⟨rfl, hstart⟩

theorem unlockedAtZero_returned :
    onPhasePress 5 0 (setup scenarioD.draw.2) = some unlockedAtZero :=
  eq_some_getD_of_isSome _ _ (by decide)

theorem secondRound_returned : updateState 5 50 unlockedAtZero = some secondRound :=
  eq_some_getD_of_isSome _ _ (by decide)

/-- C15, at the failing input. The engine is locked after boot; the unlock press arrives while
the clock reads 0. The handler unlocks and begins a round with targets 2, ..., 7, but the
`startMillis` it records is 0, the value that means that no round is active: the tick that
follows, at time 50, takes the first branch of `updateState` and begins another round, with
targets 6, 7, 0, 1, 2, 3. -/
theorem unlock_at_clock_zero_begins_round_twice :
    (setup scenarioD.draw.2).progState.isLocked = true ∧
    onPhasePress 5 0 (setup scenarioD.draw.2) = some unlockedAtZero ∧
    unlockedAtZero.progState.isLocked = false ∧
    unlockedAtZero.progState.startMillis = 0 ∧
    unlockedAtZero.bufButtonTargets = [2, 3, 4, 5, 6, 7] ∧
    unlockedAtZero.bufButtonPresses = [] ∧
    updateState 5 50 unlockedAtZero = some secondRound ∧
    updateState 5 50 unlockedAtZero = updateTargets 5 50 unlockedAtZero ∧
    secondRound.bufButtonTargets = [6, 7, 0, 1, 2, 3] ∧
    secondRound.progState.startMillis = 50 := by
  refine ⟨rfl, unlockedAtZero_returned, by decide, by decide, by decide, by decide,
    secondRound_returned, ?_, by decide, by decide⟩
  rw [updateState_playing 5 50 unlockedAtZero (by decide) (by decide) (by decide)]
  have hstart : unlockedAtZero.progState.startMillis = 0 := by decide
  simp only [hstart, if_true]

/-! ## Matching rounds near the wrap of the clock -/

/-- Where the sum `startMillis + maxSpan` stays below `2 ^ 32`, a round within its span passes
the expiry test of the code. -/
theorem isExpired_false_of_within_span (now : Nat) (w : World)
    (hround : w.progState.startMillis ≠ 0) (hnow : w.progState.startMillis ≤ now)
    (hspan : now - w.progState.startMillis ≤ getPhaseMaxSpanMillis w.progState.currPhase)
    (hsum : w.progState.startMillis + getPhaseMaxSpanMillis w.progState.currPhase < ULONG_MOD) :
    isExpired now w = false := by
  cases hexp : isExpired now w
  · rfl
  · have h := (isExpired_of_no_wrap now w hround hnow hsum).mp hexp
    omega

/-- C8, at the failing input. Scenario D (phase 2, streak 2, the presses 3, 1, 5 matching the
targets 1, 3, 5, unlocked, unfinished, no erroneous press, `hitStreak + 1` equal to the required
3) with the round started at `2 ^ 32 - 1000` and the tick 1 ms later: the round is 1 ms old, well
within the 5000 ms of phase 2, but `startMillis + maxSpan` wraps to 4000 and `isExpired` returns
`true`. The tick takes the restart path, not the advance: the phase stays 2, the streak is 0,
the engine is locked and the buffers are empty. The same happens 900 ms into the round. -/
theorem completed_streak_lost_near_clock_wrap :
    scenarioDNearWrap.progState.currPhase = 2 ∧ scenarioDNearWrap.progState.hitStreak = 2 ∧
    scenarioDNearWrap.progState.isLocked = false ∧
    scenarioDNearWrap.progState.isFinished = false ∧
    scenarioDNearWrap.progState.startMillis = 2 ^ 32 - 1000 ∧
    4294966297 < ULONG_MOD ∧
    4294966297 - scenarioDNearWrap.progState.startMillis = 1 ∧
    getPhaseMaxSpanMillis scenarioDNearWrap.progState.currPhase = 5000 ∧
    isPressesBufferError scenarioDNearWrap = false ∧
    isPressesBufferMatch scenarioDNearWrap = true ∧
    scenarioDNearWrap.progState.hitStreak + 1 ≥
      getPhaseHitStreak scenarioDNearWrap.progState.currPhase ∧
    isExpired 4294966297 scenarioDNearWrap = true ∧
    updateState 5 4294966297 scenarioDNearWrap = some (errorAndRestart scenarioDNearWrap) ∧
    updateState 5 4294967196 scenarioDNearWrap = some (errorAndRestart scenarioDNearWrap) ∧
    (errorAndRestart scenarioDNearWrap).progState.currPhase = 2 ∧
    (errorAndRestart scenarioDNearWrap).progState.hitStreak = 0 ∧
    (errorAndRestart scenarioDNearWrap).progState.isLocked = true ∧
    (errorAndRestart scenarioDNearWrap).progState.isFinished = false ∧
    (errorAndRestart scenarioDNearWrap).relay = false ∧
    (errorAndRestart scenarioDNearWrap).bufButtonTargets = [] ∧
    (errorAndRestart scenarioDNearWrap).bufButtonPresses = [] := by
  refine ⟨by decide, by decide, by decide, by decide, by decide, by decide, by decide,
    by decide, by decide, by decide, by decide, by decide, rfl, rfl, by decide, by decide,
    by decide, by decide, by decide, by decide, by decide⟩

/-- C9, at the failing input. Scenario A (phase 0, streak 0, the presses 3, 1, 5 for the targets
1, 3, 5, both duplicate-free and equal as sets, unlocked, unfinished, `hitStreak + 1` below the
required 6) with the round started at `2 ^ 32 - 1000` and the tick 1 ms later: the round is 1 ms
old, well within the 10000 ms of phase 0, but `startMillis + maxSpan` wraps to 9000 and
`isExpired` returns `true`. The tick takes the restart path instead of counting the round: the
streak stays 0, not 1, the engine is locked, not unlocked, `startMillis` is 0 and the target
buffer is empty, so no fresh round has begun. The same happens 900 ms into the round. -/
theorem matching_round_lost_near_clock_wrap :
    scenarioANearWrap.progState.currPhase = 0 ∧ scenarioANearWrap.progState.hitStreak = 0 ∧
    scenarioANearWrap.progState.isLocked = false ∧
    scenarioANearWrap.progState.isFinished = false ∧
    scenarioANearWrap.progState.startMillis = 2 ^ 32 - 1000 ∧
    4294966297 < ULONG_MOD ∧
    4294966297 - scenarioANearWrap.progState.startMillis = 1 ∧
    getPhaseMaxSpanMillis scenarioANearWrap.progState.currPhase = 10000 ∧
    scenarioANearWrap.bufButtonTargets.Nodup ∧ scenarioANearWrap.bufButtonPresses.Nodup ∧
    (∀ x, x ∈ scenarioANearWrap.bufButtonPresses ↔ x ∈ scenarioANearWrap.bufButtonTargets) ∧
    scenarioANearWrap.progState.hitStreak + 1 <
      getPhaseHitStreak scenarioANearWrap.progState.currPhase ∧
    isExpired 4294966297 scenarioANearWrap = true ∧
    updateState 5 4294966297 scenarioANearWrap = some (errorAndRestart scenarioANearWrap) ∧
    updateState 5 4294967196 scenarioANearWrap = some (errorAndRestart scenarioANearWrap) ∧
    (errorAndRestart scenarioANearWrap).progState.hitStreak = 0 ∧
    (errorAndRestart scenarioANearWrap).progState.currPhase = 0 ∧
    (errorAndRestart scenarioANearWrap).progState.isLocked = true ∧
    (errorAndRestart scenarioANearWrap).progState.startMillis = 0 ∧
    (errorAndRestart scenarioANearWrap).bufButtonTargets = [] ∧
    (errorAndRestart scenarioANearWrap).bufButtonPresses = [] := by
  refine ⟨by decide, by decide, by decide, by decide, by decide, by decide, by decide,
    by decide, by decide, by decide, ?_, by decide, by decide, rfl, rfl, by decide, by decide,
    by decide, by decide, by decide, by decide⟩
  intro x
  simp only [scenarioANearWrap, roundWorld, List.mem_cons, List.mem_singleton]
  tauto

end Compostin
